import Mathlib

/-!
# Four in a Row character device: embedding of `fourinarow.c`

The game engine and command dispatcher of the module are embedded as pure
functions on an explicit state.  The module's globals (`game_state`, `board`
and the ten response flags) become the fields of `State`; `fourinarow_write`
and `fourinarow_read` become functions from a state to a return value and a
new state.

Conventions:
* a C `char` is a `Char`, a C string or byte buffer is a `List Char`;
* `board[i][j]` is `b i j` for integer indices; the array proper is
  `0 ≤ i < ROWS`, `0 ≤ j ≤ COLS` (column `COLS` holds the row terminator), and
  the values of `b` elsewhere stand for the memory around it, which the
  dispatcher never touches because it validates the column letter first;
* the value drawn by `get_random_int()` and the outcome of the two user-copy
  primitives are arguments of the functions that use them.
-/

namespace FourInARow

/-! ## Constants and data model -/

/-- Macro `MAX_CMD_LEN`: the size of `user_cmd` and the longest input write accepts. -/
def MAX_CMD_LEN : Nat := 8

/-- Macro `ROWS`. -/
def ROWS : Nat := 8

/-- Macro `COLS`. -/
def COLS : Nat := 8

/-- Errno `EFAULT`, returned negated when a user copy fails. -/
def EFAULT : Int := 14

/-- Errno `EINVAL`, returned negated for an input that is too long. -/
def EINVAL : Int := 22

/-- The byte `'\0'`. -/
def NUL : Char := Char.ofNat 0

/-- The global `char board[ROWS][COLS + 1]`, read as `b i j`. -/
abbrev Board := Int → Int → Char

/-- The assignment `board[i][j] = v`. -/
def setCell (b : Board) (i j : Int) (v : Char) : Board :=
  fun r c => if r = i ∧ c = j then v else b r c

/-- The struct `game_state_t`; `player_turn` is 0 (no active game), 1 (player)
or 2 (CPU). -/
structure game_state_t where
  player_color : Char
  cpu_color : Char
  player_turn : Int
  deriving DecidableEq

/-- The mutable globals of the module: session, board and the flags that
carry a response from write to read. -/
structure State where
  game_state : game_state_t
  board : Board
  display_board : Bool
  reset : Bool
  dropc : Bool
  cturn : Bool
  win : Bool
  loss : Bool
  tie : Bool
  ok : Bool
  nogame : Bool
  outofturn : Bool

/-! ## Board operations -/

/-- Function `init_board`: every cell of every row becomes `'0'` and the
ninth byte of the row becomes the terminator. -/
def init_board (b : Board) : Board :=
  (List.range ROWS).foldl
    (fun acc (i : Nat) =>
      setCell ((List.range COLS).foldl (fun a (j : Nat) => setCell a i j '0') acc) i COLS NUL)
    b

/-- Function `char_to_col`: `'A'..'H'` map to `0..7`, anything else to `-1`. -/
def char_to_col (c : Char) : Int :=
  if 'A' ≤ c ∧ c ≤ 'H' then (c.toNat : Int) - ('A'.toNat : Int) else -1

/-- Function `drop`: the first row (from row index 0) whose cell in the column
is `'0'` receives the piece and the result is `true`; when the loop finds no
such row the board is left alone and the result is `false`. -/
def drop (b : Board) (column piece : Char) : Bool × Board :=
  let col := char_to_col column
  match (List.range ROWS).find? (fun i : Nat => b i col == '0') with
  | some i => (true, setCell b i col piece)
  | none => (false, b)

/-- Function `check_tie`: `false` as soon as some cell is `'0'`, else `true`. -/
def check_tie (b : Board) : Bool :=
  !((List.range ROWS).any fun i : Nat => (List.range COLS).any fun j : Nat => b i j == '0')

/-- Function `check_win`: the four scans of the source, in order; each returns
`true` at the first start cell whose run of four holds the piece. -/
def check_win (b : Board) (piece : Char) : Bool :=
  -- horizontal
  ((List.range ROWS).any fun i : Nat => (List.range (COLS - 3)).any fun j : Nat =>
      b i j == piece && b i (j + 1) == piece && b i (j + 2) == piece &&
        b i (j + 3) == piece)
  -- vertical
  || ((List.range (ROWS - 3)).any fun i : Nat => (List.range COLS).any fun j : Nat =>
      b i j == piece && b (i + 1) j == piece && b (i + 2) j == piece &&
        b (i + 3) j == piece)
  -- rows i = 3 .. ROWS - 1, row index falling as the column index rises
  || (((List.range ROWS).filter fun i : Nat => 3 ≤ i).any fun i : Nat =>
      (List.range (COLS - 3)).any fun j : Nat =>
        b i j == piece && b ((i : Int) - 1) (j + 1) == piece &&
          b ((i : Int) - 2) (j + 2) == piece && b ((i : Int) - 3) (j + 3) == piece)
  -- row index rising with the column index
  || ((List.range (ROWS - 3)).any fun i : Nat => (List.range (COLS - 3)).any fun j : Nat =>
      b i j == piece && b (i + 1) (j + 1) == piece && b (i + 2) (j + 2) == piece &&
        b (i + 3) (j + 3) == piece)

/-! ## C library pieces used by the dispatcher -/

/-- The C string held in a buffer: the bytes before the first NUL. -/
def c_str (m : List Char) : List Char := m.takeWhile fun c => c != NUL

/-- Result of `strcmp(s, lit) == 0` for a C string `s`. -/
def strcmp_eq (s : List Char) (lit : String) : Bool := s == lit.toList

/-- Result of `strncmp(s, lit, n) == 0` for a C string `s`. -/
def strncmp_eq (s : List Char) (lit : String) (n : Nat) : Bool :=
  s.take n == lit.toList.take n

/-- Kernel `isspace` (lib/ctype.c): bytes 9..13, 32 and 160. -/
def isspace (c : Char) : Bool :=
  (9 ≤ c.toNat && c.toNat ≤ 13) || c.toNat == 32 || c.toNat == 160

/-- Kernel `skip_spaces`. -/
def skip_spaces (s : List Char) : List Char := s.dropWhile isspace

/-- Kernel `sscanf(s, "<lit> %c", &x)` on a C string `s` (lib/vsprintf.c):
the literal bytes must match one by one, the blank of the format skips any
white space of the input (none included), and `%c` stores the next byte if
the input has not ended.  `some c` stands for return value 1 with `x = c`,
`none` for any other return value. -/
def sscanf_c : List Char → List Char → Option Char
  | s, [] => (skip_spaces s).head?
  | [], _ :: _ => none
  | c :: cs, l :: ls => if l = c then sscanf_c cs ls else none

/-! ## Read -/

/-- The `snprintf` conversion `%.8s` applied to row `i` of the board: at most
eight bytes, stopping at a NUL. -/
def row_text (b : Board) (i : Nat) : List Char :=
  c_str ((List.range COLS).map fun j : Nat => b i j)

/-- The text built in `board_str` by the display branch of read. -/
def board_text (b : Board) : List Char :=
  "  ABCDEFGH\n".toList ++
    ((List.range ROWS).reverse.map fun i : Nat =>
      (Nat.repr (i + 1)).toList ++ " ".toList ++ row_text b i ++ "\n".toList).flatten

/-- What one call of a file operation yields: the return value, the bytes
copied to the user buffer and the file offset afterwards. -/
structure Reply where
  ret : Int
  out : List Char
  off : Int

/-- The shared tail of every branch of read that sends a message: copy it out
(failing with `-EFAULT` and no state change), advance the offset and apply the
branch's flag update. -/
def send (s : State) (off : Int) (copy_fails : Bool) (msg : List Char)
    (clear : State) : Reply × State :=
  if copy_fails then (⟨-EFAULT, [], off⟩, s)
  else (⟨msg.length, msg, off + msg.length⟩, clear)

/-- Function `fourinarow_read`.  `off` is `*off` on entry and `copy_fails`
tells whether `copy_to_user` reports a fault. -/
def fourinarow_read (s : State) (off : Int) (copy_fails : Bool) : Reply × State :=
  if off > 0 then (⟨0, [], off⟩, s)
  else if s.display_board then
    send s off copy_fails (board_text s.board) { s with display_board := false }
  else if s.reset || s.ok then
    send s off copy_fails "OK\n".toList { s with reset := false }
  else if s.nogame then
    send s off copy_fails "NOGAME\n".toList { s with nogame := false }
  else if s.win then
    send s off copy_fails "WIN\n".toList { s with win := false }
  else if s.tie then
    send s off copy_fails "TIE\n".toList { s with tie := false }
  else if s.loss then
    send s off copy_fails "LOSE\n".toList { s with loss := false }
  else if s.outofturn then
    send s off copy_fails "OOT\n".toList { s with outofturn := false }
  else (⟨0, [], off⟩, s)

/-! ## Write -/

/-- The command text that write compares: the input bytes are copied to
`user_cmd`, a NUL is stored at index `len`, a newline at index `len - 1` is
replaced by NUL, and the buffer is then read as a C string.  The list `m` is
the buffer from index 0 to index `len`; for `len = MAX_CMD_LEN` its last byte
lies one past the declared array.  For `len = 0` the byte tested for a newline
lies before the buffer, and the text is empty whatever that byte is. -/
def command_text (buf : List Char) : List Char :=
  let m := buf ++ [NUL]
  let m := if m.getD (buf.length - 1) NUL = '\n' ∧ 0 < buf.length
    then m.set (buf.length - 1) NUL else m
  c_str m

/-- The column test of the `DROPC` branch. -/
def is_column (c : Char) : Bool :=
  c == 'A' || c == 'B' || c == 'C' || c == 'D' || c == 'E' || c == 'F' ||
    c == 'G' || c == 'H'

/-- The `RESET` branch once a colour was accepted. -/
def do_reset (s : State) (player : Char) : State :=
  { s with
    board := init_board s.board
    game_state :=
      { player_turn := 1
        player_color := player
        cpu_color := if player = 'R' then 'Y' else 'R' }
    reset := true }

/-- The `DROPC` branch once a column was accepted. -/
def do_dropc (s : State) (column : Char) : State :=
  if s.game_state.player_turn = 0 then { s with nogame := true }
  else if s.game_state.player_turn = 1 then
    let r := drop s.board column s.game_state.player_color
    if r.1 then
      if check_win r.2 s.game_state.player_color then
        { s with board := r.2, game_state := { s.game_state with player_turn := 0 },
                 win := true }
      else if check_tie r.2 then
        { s with board := r.2, game_state := { s.game_state with player_turn := 0 },
                 tie := true }
      else
        { s with board := r.2, game_state := { s.game_state with player_turn := 2 },
                 ok := true }
    else s
  else if s.game_state.player_turn = 2 then { s with outofturn := true }
  else s

/-- The column letter `'A' + (get_random_int() % 8)` of the `CTURN` branch. -/
def draw_column (rnd : Nat) : Char := Char.ofNat ('A'.toNat + rnd % 8)

/-- The `CTURN` branch; `rnd` is the value of `get_random_int()`. -/
def do_cturn (s : State) (rnd : Nat) : State :=
  if s.game_state.player_turn = 0 then { s with nogame := true }
  else if s.game_state.player_turn = 1 then { s with outofturn := true }
  else if s.game_state.player_turn = 2 then
    let col := draw_column rnd
    let r := drop s.board col s.game_state.cpu_color
    if r.1 then
      if check_win r.2 s.game_state.cpu_color then
        { s with board := r.2, game_state := { s.game_state with player_turn := 0 },
                 loss := true }
      else if check_tie r.2 then
        { s with board := r.2, game_state := { s.game_state with player_turn := 0 },
                 tie := true }
      else
        { s with board := r.2, game_state := { s.game_state with player_turn := 1 },
                 ok := true }
    else s
  else s

/-- The command dispatch of write on the command text. -/
def dispatch (s : State) (cmd : List Char) (rnd : Nat) : State :=
  if strcmp_eq cmd "BOARD" then { s with display_board := true }
  else if strncmp_eq cmd "RESET" 5 then
    match sscanf_c cmd "RESET".toList with
    | some player => if player = 'R' ∨ player = 'Y' then do_reset s player else s
    | none => s
  else if strncmp_eq cmd "DROPC" 5 then
    match sscanf_c cmd "DROPC".toList with
    | some column => if is_column column then do_dropc s column else s
    | none => s
  else if strcmp_eq cmd "CTURN" then do_cturn s rnd
  else s

/-- Function `fourinarow_write`.  `buf` holds the `len` bytes offered by the
caller, `copy_fails` tells whether `copy_from_user` reports a fault and `rnd`
is the value `get_random_int()` would return. -/
def fourinarow_write (s : State) (buf : List Char) (copy_fails : Bool) (rnd : Nat) :
    Int × State :=
  if buf.length > MAX_CMD_LEN then (-EINVAL, s)
  else if copy_fails then (-EFAULT, s)
  else (buf.length, dispatch s (command_text buf) rnd)

/-! ## Runs of the device -/

/-- The state right after `fourinarow_init`: zeroed globals, then `init_board`. -/
def fresh : State :=
  { game_state := { player_color := NUL, cpu_color := NUL, player_turn := 0 }
    board := init_board fun _ _ => NUL
    display_board := false, reset := false, dropc := false, cturn := false
    win := false, loss := false, tie := false, ok := false, nogame := false
    outofturn := false }

/-- One call made on the device file. -/
inductive Op where
  | write (buf : List Char) (copy_fails : Bool) (rnd : Nat)
  | read (off : Int) (copy_fails : Bool)

/-- The state after one call. -/
def step (s : State) : Op → State
  | .write buf f rnd => (fourinarow_write s buf f rnd).2
  | .read off f => (fourinarow_read s off f).2

/-- The state after a sequence of calls. -/
def run (s : State) (ops : List Op) : State := ops.foldl step s

/-- States the module can be in after loading and any sequence of calls. -/
def Reachable (s : State) : Prop := ∃ ops, run fresh ops = s

/-- A plain successful write of a text command. -/
def wr (cmd : String) (rnd : Nat) : Op := .write cmd.toList false rnd

/-- A plain successful read at file offset 0. -/
def rd : Op := .read 0 false

/-! ## Vocabulary of the specification -/

/-- The four directions in which a run of four counts. -/
inductive Direction where
  | horizontal
  | vertical
  | diag_up_right
  | diag_down_right
  deriving DecidableEq

/-- Row step of a direction (rows are numbered upward from the bottom row). -/
def Direction.dr : Direction → Int
  | .horizontal => 0
  | .vertical => 1
  | .diag_up_right => 1
  | .diag_down_right => -1

/-- Column step of a direction. -/
def Direction.dc : Direction → Int
  | .horizontal => 1
  | .vertical => 0
  | .diag_up_right => 1
  | .diag_down_right => 1

/-- The cell `(i, j)` lies inside the 8x8 playing area. -/
def InBoard (i j : Int) : Prop := 0 ≤ i ∧ i < ROWS ∧ 0 ≤ j ∧ j < COLS

instance (i j : Int) : Decidable (InBoard i j) := by unfold InBoard; infer_instance

/-- The four consecutive cells from `(r, c)` in direction `d` all lie inside
the board and all hold `piece`. -/
def RunOfFour (b : Board) (piece : Char) (r c : Int) (d : Direction) : Prop :=
  ∀ k ∈ ([0, 1, 2, 3] : List Int),
    InBoard (r + k * d.dr) (c + k * d.dc) ∧ b (r + k * d.dr) (c + k * d.dc) = piece

instance (b : Board) (piece : Char) (r c : Int) (d : Direction) :
    Decidable (RunOfFour b piece r c d) := by unfold RunOfFour; infer_instance

/-- The cells of a run: the run from `(r, c)` in direction `d` passes through
`(i, j)`. -/
def OnRun (r c : Int) (d : Direction) (i j : Int) : Prop :=
  ∃ k ∈ ([0, 1, 2, 3] : List Int), i = r + k * d.dr ∧ j = c + k * d.dc

/-! ## Boards, states and runs used as instances -/

/-- A board holding four `R` pieces in columns A..D of the bottom row. -/
def bottom_row_run : Board := fun i j => if i = 0 ∧ 0 ≤ j ∧ j < 4 then 'R' else '0'

/-- A board whose column A is empty up to row index 2 and holds `Y` above. -/
def column_a_partly_filled : Board := fun i j => if j = 0 ∧ i < 2 then 'Y' else '0'

/-- The state after `RESET R`, `DROPC A` and the read of the reply, from the
freshly loaded module. -/
def after_first_move : State :=
  (fourinarow_read (do_dropc (do_reset fresh 'R') 'A') 0 false).2

/-- A state in PlayerTurn right after `RESET R`. -/
def new_game_R : State := do_reset fresh 'R'

/-- A client that reads every reply: the player stacks column A, the computer
draws column B each time; the player's fourth piece is still to be dropped. -/
def trace_before_player_win : List Op :=
  [wr "RESET R" 0, rd, wr "DROPC A" 0, rd, wr "CTURN" 1, rd, wr "DROPC A" 0, rd,
    wr "CTURN" 1, rd, wr "DROPC A" 0, rd, wr "CTURN" 1, rd]

/-- A client that reads every reply: the player drops into A, A, C, C, the
computer draws column B each time; the computer's fourth piece is still to be
dropped. -/
def trace_before_cpu_win : List Op :=
  [wr "RESET R" 0, rd, wr "DROPC A" 0, rd, wr "CTURN" 1, rd, wr "DROPC A" 0, rd,
    wr "CTURN" 1, rd, wr "DROPC C" 0, rd, wr "CTURN" 1, rd, wr "DROPC C" 0, rd]

/-- A game in which the player has made the first move and read every reply. -/
def trace_cpu_turn : List Op := [wr "RESET R" 0, rd, wr "DROPC A" 0, rd]

/-! ## Runs without an accepted `RESET` -/

/-- The call is a write that reaches the assignments of the `RESET` branch. -/
def Op.accepted_reset : Op → Bool
  | .write buf copy_fails _ =>
    decide (buf.length ≤ MAX_CMD_LEN) && !copy_fails &&
      !strcmp_eq (command_text buf) "BOARD" && strncmp_eq (command_text buf) "RESET" 5 &&
      (match sscanf_c (command_text buf) "RESET".toList with
        | some player => player == 'R' || player == 'Y'
        | none => false)
  | .read _ _ => false

/-- What holds as long as no `RESET` was accepted: no game is active, the
board is the freshly initialised one, and none of the replies that only a
game can produce is pending. -/
structure NoGameYet (s : State) : Prop where
  turn : s.game_state.player_turn = 0
  board : s.board = fresh.board
  reset : s.reset = false
  ok : s.ok = false
  win : s.win = false
  tie : s.tie = false
  loss : s.loss = false
  outofturn : s.outofturn = false

/-! ## The response flags as seen by read -/

/-- The flags through which write hands a reply to read. -/
inductive Flag where
  | display_board
  | reset
  | ok
  | nogame
  | win
  | tie
  | loss
  | outofturn
  deriving DecidableEq

/-- The value of a flag in a state. -/
def State.flag (s : State) : Flag → Bool
  | .display_board => s.display_board
  | .reset => s.reset
  | .ok => s.ok
  | .nogame => s.nogame
  | .win => s.win
  | .tie => s.tie
  | .loss => s.loss
  | .outofturn => s.outofturn

/-- The flags that read clears, in the order of the branches of read. -/
def read_order : List Flag :=
  [.display_board, .reset, .nogame, .win, .tie, .loss, .outofturn]

/-- The flags of `read_order` that are set, in that order. -/
def served (s : State) : List Flag := read_order.filter s.flag

/-- The message that the branch of read for a flag sends. -/
def reply_text (b : Board) : Flag → List Char
  | .display_board => board_text b
  | .reset => "OK\n".toList
  | .ok => "OK\n".toList
  | .nogame => "NOGAME\n".toList
  | .win => "WIN\n".toList
  | .tie => "TIE\n".toList
  | .loss => "LOSE\n".toList
  | .outofturn => "OOT\n".toList

/-- The message of the first flag of a list, or no bytes for the empty list. -/
def first_reply (b : Board) : List Flag → List Char
  | [] => []
  | f :: _ => reply_text b f

/-- The same state with every flag cleared. -/
def no_flags (s : State) : State :=
  { s with
    display_board := false, reset := false, dropc := false, cturn := false, win := false
    loss := false, tie := false, ok := false, nogame := false, outofturn := false }

/-- Every flag. -/
def all_flags : List Flag :=
  [.display_board, .reset, .ok, .nogame, .win, .tie, .loss, .outofturn]

/-- The flags a successful write of `buf` sets in state `s`: those that are set
after the write when none was set before it. -/
def response_of (s : State) (buf : List Char) (rnd : Nat) : List Flag :=
  all_flags.filter (fourinarow_write (no_flags s) buf false rnd).2.flag

/-- Position of the branch of read that serves a flag. -/
def Flag.rank : Flag → Nat
  | .display_board => 0
  | .reset => 1
  | .ok => 1
  | .nogame => 2
  | .win => 3
  | .tie => 4
  | .loss => 5
  | .outofturn => 6

/-- The flags pending after one command set `f1` and another set `f2`, in the
order in which read serves them. -/
def both_in_read_order (f1 f2 : Flag) : List Flag :=
  if f1 = f2 then [f1] else if f1.rank < f2.rank then [f1, f2] else [f2, f1]

/-! ## Inputs the dispatcher does not act on -/

/-- The text is `lit`, then any amount of white space (none included), then a
byte satisfying `p`, then anything. -/
def LooseForm (lit : List Char) (p : Char → Prop) (cmd : List Char) : Prop :=
  ∃ ws c rest, (∀ w ∈ ws, isspace w = true) ∧ p c ∧ cmd = lit ++ (ws ++ c :: rest)

/-! ## Further boards, states and runs used as instances -/

/-- A state in PlayerTurn whose column A is full (of `Y`) and whose other
columns are empty. -/
def player_turn_column_a_full : State :=
  { new_game_R with board := fun _ j => if j = 0 then 'Y' else '0' }

/-- A state in CpuTurn whose column C is full (of `R`) and whose other columns
are empty. -/
def cpu_turn_column_c_full : State :=
  { new_game_R with
    board := fun _ j => if j = 2 then 'R' else '0'
    game_state := { new_game_R.game_state with player_turn := 2 } }

/-- The calls `drop(column, p)` for the pieces `p` of a list, one after
another: the results of the calls in order, and the board after the last. -/
def drop_all (b : Board) (column : Char) : List Char → List Bool × Board
  | [] => ([], b)
  | p :: ps => ((drop b column p).1 :: (drop_all (drop b column p).2 column ps).1,
      (drop_all (drop b column p).2 column ps).2)

/-- Column `col` of the board holds pieces in its rows below `k` and is empty
from row `k` up to the top row. -/
def FilledTo (b : Board) (col : Int) (k : Nat) : Prop :=
  (∀ i : Nat, i < k → b i col ≠ '0') ∧ (∀ i : Nat, k ≤ i → i < ROWS → b i col = '0')

/-- The display as the specification words it: the header line, then for
`k = 8` down to `1` the line made of the digit `k`, one blank and the eight
cells of row `k` from column A to column H, every line ended by a newline. -/
def display_lines (b : Board) : List (List Char) :=
  "  ABCDEFGH\n".toList ::
    ([8, 7, 6, 5, 4, 3, 2, 1].map fun k : Nat =>
      [Char.ofNat ('0'.toNat + k), ' ',
        b ((k : Int) - 1) 0, b ((k : Int) - 1) 1, b ((k : Int) - 1) 2, b ((k : Int) - 1) 3,
        b ((k : Int) - 1) 4, b ((k : Int) - 1) 5, b ((k : Int) - 1) 6, b ((k : Int) - 1) 7,
        '\n'])

/-! ## The command buffer -/

/-- The length check at the head of write: the input goes on to be copied
unless `len > MAX_CMD_LEN`. -/
def length_accepted (len : Nat) : Bool := !decide (len > MAX_CMD_LEN)

/-- The index of `user_cmd` at which write stores the terminator
(`user_cmd[len] = 0`). -/
def terminator_index (len : Nat) : Nat := len

/-- The index of `user_cmd` that write tests for a newline
(`user_cmd[len - 1]`), the subtraction being done in the unsigned 64-bit type
of `len`. -/
def newline_index (len : Nat) : Nat := (len + 2 ^ 64 - 1) % 2 ^ 64

/-- The index lies inside the array `char user_cmd[MAX_CMD_LEN]`. -/
def in_user_cmd (i : Nat) : Prop := i < MAX_CMD_LEN

instance (i : Nat) : Decidable (in_user_cmd i) := by unfold in_user_cmd; infer_instance

/-! ## Vocabulary for the invariants of a game -/

/-- The session after a move that placed a piece: the game is over if the
mover has four in a row or the board is full, else the turn passes to `next`. -/
def session_after_move (g : game_state_t) (b : Board) (mover : Char) (next : Int) :
    game_state_t :=
  { g with player_turn := if check_win b mover then 0 else if check_tie b then 0 else next }

/-- In every column the cells that are not empty form a run from the bottom
row upward: below a cell that is not empty no cell is empty. -/
def Gravity (b : Board) : Prop :=
  ∀ r c, InBoard r c → b r c ≠ '0' → ∀ r2, 0 ≤ r2 → r2 < r → b r2 c ≠ '0'

/-- The 64 cells of the playing area, row by row. -/
def all_cells : List (Int × Int) :=
  (List.range ROWS).flatMap fun i : Nat =>
    (List.range COLS).map fun j : Nat => ((i : Int), (j : Int))

/-- The number of cells of the playing area that hold `piece`. -/
def count_cells (b : Board) (piece : Char) : Nat :=
  all_cells.countP fun c => b c.1 c.2 == piece

/-- What holds of session and board while a game is on (turn state PlayerTurn
or CpuTurn): the colours are `R` and `Y`, one each; every cell is empty or
holds one of them; the piece counts follow the turn; nobody has four in a row
and the board is not full. -/
structure GameInv (g : game_state_t) (b : Board) : Prop where
  turn_range : g.player_turn = 0 ∨ g.player_turn = 1 ∨ g.player_turn = 2
  colours : g.player_turn ≠ 0 →
    (g.player_color = 'R' ∧ g.cpu_color = 'Y') ∨ (g.player_color = 'Y' ∧ g.cpu_color = 'R')
  total : g.player_turn ≠ 0 →
    count_cells b '0' + count_cells b g.player_color + count_cells b g.cpu_color = 64
  player_turn : g.player_turn = 1 →
    count_cells b g.player_color = count_cells b g.cpu_color
  cpu_turn : g.player_turn = 2 →
    count_cells b g.player_color = count_cells b g.cpu_color + 1
  no_win : g.player_turn ≠ 0 →
    check_win b g.player_color = false ∧ check_win b g.cpu_color = false
  not_full : g.player_turn ≠ 0 → check_tie b = false

/-- Sixteen moves, every reply read, that fill two columns: the player drops
into `p`, the computer draws `q`, the player drops into `q`, the computer
draws `p`, four times over. -/
def fill_pair (p q : Char) : List Op :=
  (List.replicate 4
    [Op.write ("DROPC ".toList ++ [p]) false 0, rd,
      Op.write "CTURN".toList false (q.toNat - 'A'.toNat), rd,
      Op.write ("DROPC ".toList ++ [q]) false 0, rd,
      Op.write "CTURN".toList false (p.toNat - 'A'.toNat), rd]).flatten

/-- A whole game without four in a row, every reply read, up to the last
empty cell (row 8 of column F), which the computer's next draw of column F
fills: `RESET R`, then the column pairs A and C, B and D, E and G, F and H. -/
def trace_before_tie : List Op :=
  [wr "RESET R" 0, rd] ++ fill_pair 'A' 'C' ++ fill_pair 'B' 'D' ++ fill_pair 'E' 'G' ++
    (fill_pair 'F' 'H').dropLast.dropLast

/-! ## Facts about `check_win` -/

theorem check_win_of_run (b : Board) (piece : Char) (r c : Int) (d : Direction)
    (h : RunOfFour b piece r c d) : check_win b piece = true := by
  simp only [RunOfFour, List.mem_cons, List.mem_singleton, forall_eq_or_imp, forall_eq,
    InBoard, ROWS, COLS, List.not_mem_nil, false_imp_iff, or_false, imp_false,
    implies_true, and_true] at h
  obtain ⟨⟨hb0, h0⟩, ⟨hb1, h1⟩, ⟨hb2, h2⟩, ⟨hb3, h3⟩⟩ := h
  have hr : ((r.toNat : Nat) : Int) = r := Int.toNat_of_nonneg (by cases d <;> simp [Direction.dr] at hb0 <;> omega)
  have hc : ((c.toNat : Nat) : Int) = c := Int.toNat_of_nonneg (by cases d <;> simp [Direction.dc] at hb0 <;> omega)
  simp only [check_win, Bool.or_eq_true, List.any_eq_true, List.mem_range, List.mem_filter,
    Bool.and_eq_true, beq_iff_eq, decide_eq_true_eq, ROWS, COLS]
  cases d <;> simp only [Direction.dr, Direction.dc] at hb0 hb1 hb2 hb3 h0 h1 h2 h3
  · refine Or.inl (Or.inl (Or.inl ⟨r.toNat, by omega, c.toNat, by omega, ?_⟩))
    rw [hr, hc]
    simp_all
  · refine Or.inl (Or.inl (Or.inr ⟨r.toNat, by omega, c.toNat, by omega, ?_⟩))
    rw [hr, hc]
    simp_all
  · refine Or.inr ⟨r.toNat, by omega, c.toNat, by omega, ?_⟩
    rw [hr, hc]
    simp_all
  · refine Or.inl (Or.inr ⟨r.toNat, ⟨by omega, by omega⟩, c.toNat, by omega, ?_⟩)
    rw [hr, hc]
    simp_all [sub_eq_add_neg]

theorem run_of_check_win (b : Board) (piece : Char) (h : check_win b piece = true) :
    ∃ r c d, RunOfFour b piece r c d := by
  simp only [check_win, Bool.or_eq_true, List.any_eq_true, List.mem_range, List.mem_filter,
    Bool.and_eq_true, beq_iff_eq, decide_eq_true_eq, ROWS, COLS] at h
  rcases h with ((⟨i, hi, j, hj, h⟩ | ⟨i, hi, j, hj, h⟩) | ⟨i, hi, j, hj, h⟩) | ⟨i, hi, j, hj, h⟩
  · refine ⟨i, j, .horizontal, ?_⟩
    simp [RunOfFour, InBoard, ROWS, COLS, Direction.dr, Direction.dc, h]
    omega
  · refine ⟨i, j, .vertical, ?_⟩
    simp [RunOfFour, InBoard, ROWS, COLS, Direction.dr, Direction.dc, h]
    omega
  · refine ⟨i, j, .diag_down_right, ?_⟩
    simp [RunOfFour, InBoard, ROWS, COLS, Direction.dr, Direction.dc, h, ← sub_eq_add_neg]
    omega
  · refine ⟨i, j, .diag_up_right, ?_⟩
    simp [RunOfFour, InBoard, ROWS, COLS, Direction.dr, Direction.dc, h]
    omega

/-- A run of four cannot fit into a run of four with one of its cells removed. -/
theorem no_run_in_three (r c : Int) (d : Direction) (k0 : Int)
    (r2 c2 : Int) (d2 : Direction)
    (h : ∀ k ∈ ([0, 1, 2, 3] : List Int), ∃ m ∈ ([0, 1, 2, 3] : List Int),
      m ≠ k0 ∧ r2 + k * d2.dr = r + m * d.dr ∧ c2 + k * d2.dc = c + m * d.dc)
    (hk0 : k0 ∈ ([0, 1, 2, 3] : List Int)) : False := by
  simp only [List.mem_cons, List.mem_singleton, List.not_mem_nil, or_false] at h hk0
  obtain ⟨m0, hm0, hne0, hr0, hc0⟩ := h 0 (by simp)
  obtain ⟨m1, hm1, hne1, hr1, hc1⟩ := h 1 (by simp)
  obtain ⟨m2, hm2, hne2, hr2, hc2⟩ := h 2 (by simp)
  obtain ⟨m3, hm3, hne3, hr3, hc3⟩ := h 3 (by simp)
  cases d <;> cases d2 <;> simp only [Direction.dr, Direction.dc] at hr0 hc0 hr1 hc1 hr2 hc2 hr3 hc3 <;>
    omega

/-- C1. `check_win(piece)` is true exactly when some start cell and one of the
four directions give four consecutive cells inside the board that all hold the
piece.  In particular, on a board whose only cells of that colour are one such
run of four, `check_win` is true, and clearing any one cell of the run (storing
the empty mark `'0'`) makes it false. -/
theorem check_win_iff_run_of_four (b : Board) (piece : Char) :
    (check_win b piece = true ↔ ∃ r c d, RunOfFour b piece r c d) ∧
    (∀ r c d, piece ≠ '0' → RunOfFour b piece r c d →
      (∀ i j, InBoard i j → b i j = piece → OnRun r c d i j) →
      check_win b piece = true ∧
      ∀ k ∈ ([0, 1, 2, 3] : List Int),
        check_win (setCell b (r + k * d.dr) (c + k * d.dc) '0') piece = false) := by
  refine ⟨⟨run_of_check_win b piece, fun ⟨r, c, d, h⟩ => check_win_of_run b piece r c d h⟩, ?_⟩
  intro r c d hp hrun honly
  refine ⟨check_win_of_run b piece r c d hrun, fun k0 hk0 => ?_⟩
  rw [Bool.eq_false_iff]
  intro hw
  obtain ⟨r2, c2, d2, h2⟩ := run_of_check_win _ _ hw
  refine no_run_in_three r c d k0 r2 c2 d2 (fun k hk => ?_) hk0
  obtain ⟨hin, hcell⟩ := h2 k hk
  by_cases hat : r2 + k * d2.dr = r + k0 * d.dr ∧ c2 + k * d2.dc = c + k0 * d.dc
  · rw [setCell, if_pos hat] at hcell
    exact absurd hcell.symm hp
  · rw [setCell, if_neg hat] at hcell
    obtain ⟨m, hm, hi, hj⟩ := honly _ _ hin hcell
    refine ⟨m, hm, ?_, hi, hj⟩
    rintro rfl
    exact hat ⟨hi, hj⟩

/-! ## Facts about `drop` -/

/-- The two outcomes of `drop`, for any column index the conversion yields. -/
theorem drop_cases (b : Board) (column piece : Char) :
    (∃ i : Nat, i < ROWS ∧ b i (char_to_col column) = '0' ∧
        (∀ k : Nat, k < i → b k (char_to_col column) ≠ '0') ∧
        drop b column piece = (true, setCell b i (char_to_col column) piece)) ∨
    ((∀ i : Nat, i < ROWS → b i (char_to_col column) ≠ '0') ∧
        drop b column piece = (false, b)) := by
  cases h : (List.range ROWS).find? (fun i : Nat => b i (char_to_col column) == '0') with
  | none =>
    right
    refine ⟨fun i hi => ?_, by simp only [drop, h]⟩
    rw [List.find?_range_eq_none] at h
    simpa using h i hi
  | some i =>
    left
    refine ⟨i, ?_, ?_, fun k hk => ?_, by simp only [drop, h]⟩ <;>
      rw [List.find?_range_eq_some] at h
    · exact List.mem_range.mp h.2.1
    · simpa using h.1
    · simpa using h.2.2 k hk

/-- The letters `A..H` are converted to the indices `0..7`. -/
theorem char_to_col_letter (column : Char) (h : column ∈ "ABCDEFGH".toList) :
    char_to_col column = ("ABCDEFGH".toList.indexOf column : Nat) ∧
      0 ≤ char_to_col column ∧ char_to_col column < COLS := by
  simp only [String.toList, List.mem_cons, List.mem_singleton, List.not_mem_nil,
    or_false] at h
  rcases h with rfl | rfl | rfl | rfl | rfl | rfl | rfl | rfl <;> decide

/-- C2. For a column letter `A..H`: if the column has an empty cell, `drop`
returns true and the new board is the old one except that the lowest empty cell
of the column holds the piece; if the column has no empty cell, `drop` returns
false and the board is unchanged. -/
theorem drop_lowest_empty_or_full (b : Board) (column piece : Char)
    (hcol : column ∈ "ABCDEFGH".toList) :
    char_to_col column = ("ABCDEFGH".toList.indexOf column : Nat) ∧
    ((∃ i : Int, 0 ≤ i ∧ i < ROWS ∧ b i (char_to_col column) = '0') →
      (drop b column piece).1 = true ∧
      ∃ i : Int, 0 ≤ i ∧ i < ROWS ∧ b i (char_to_col column) = '0' ∧
        (∀ k : Int, 0 ≤ k → k < i → b k (char_to_col column) ≠ '0') ∧
        (drop b column piece).2 i (char_to_col column) = piece ∧
        ∀ r c, ¬ (r = i ∧ c = char_to_col column) → (drop b column piece).2 r c = b r c) ∧
    ((¬ ∃ i : Int, 0 ≤ i ∧ i < ROWS ∧ b i (char_to_col column) = '0') →
      (drop b column piece).1 = false ∧ (drop b column piece).2 = b) := by
  refine ⟨(char_to_col_letter column hcol).1, ?_, ?_⟩
  · rintro ⟨i0, hi0, hi0', he0⟩
    rcases drop_cases b column piece with ⟨i, hi, he, hlow, hd⟩ | ⟨hfull, _⟩
    · rw [hd]
      refine ⟨rfl, i, by omega, by exact_mod_cast hi, he, fun k hk0 hk => ?_, ?_, ?_⟩
      · have := hlow k.toNat (by omega)
        rwa [Int.toNat_of_nonneg hk0] at this
      · simp [setCell]
      · intro r c hrc
        simp only [setCell, if_neg hrc]
    · exfalso
      have := hfull i0.toNat (by simp only [ROWS] at hi0' ⊢; omega)
      rw [Int.toNat_of_nonneg hi0] at this
      exact this he0
  · intro hno
    rcases drop_cases b column piece with ⟨i, hi, he, _, _⟩ | ⟨_, hd⟩
    · exact absurd ⟨(i : Int), by omega, by exact_mod_cast hi, he⟩ hno
    · rw [hd]
      exact ⟨rfl, rfl⟩

/-- Instance of C1 on `bottom_row_run`: the run of four `R` in the bottom row
wins, and clearing any of its cells does not. -/
theorem check_win_iff_run_of_four_witness :
    check_win bottom_row_run 'R' = true ∧
      ∀ k ∈ ([0, 1, 2, 3] : List Int),
        check_win (setCell bottom_row_run (0 + k * Direction.horizontal.dr)
          (0 + k * Direction.horizontal.dc) '0') 'R' = false :=
  (check_win_iff_run_of_four bottom_row_run 'R').2 0 0 .horizontal (by decide)
    (by decide)
    (by
      intro i j _ h
      simp only [bottom_row_run] at h
      split at h
      · rename_i hc
        refine ⟨j, ?_, ?_, ?_⟩
        · simp only [List.mem_cons, List.mem_singleton, List.not_mem_nil, or_false]
          omega
        · simp [Direction.dr, hc.1]
        · simp [Direction.dc]
      · exact absurd h (by decide))

/-- Instance of C2: a drop into column A of `column_a_partly_filled` lands on
row index 2. -/
theorem drop_lowest_empty_or_full_witness :
    'A' ∈ "ABCDEFGH".toList ∧
      (drop column_a_partly_filled 'A' 'R').1 = true ∧
      (drop column_a_partly_filled 'A' 'R').2 2 0 = 'R' :=
  ⟨by decide,
    ((drop_lowest_empty_or_full column_a_partly_filled 'A' 'R' (by decide)).2.1
      ⟨2, by decide, by decide, by decide⟩).1, by decide⟩

/-! ## Facts about `init_board` and `check_tie` -/

theorem init_board_cell (b : Board) (i j : Int) (h : InBoard i j) :
    init_board b i j = '0' := by
  obtain ⟨h1, h2, h3, h4⟩ := h
  simp only [ROWS, COLS] at h2 h4
  have hi : i = 0 ∨ i = 1 ∨ i = 2 ∨ i = 3 ∨ i = 4 ∨ i = 5 ∨ i = 6 ∨ i = 7 := by omega
  have hj : j = 0 ∨ j = 1 ∨ j = 2 ∨ j = 3 ∨ j = 4 ∨ j = 5 ∨ j = 6 ∨ j = 7 := by omega
  rcases hi with rfl | rfl | rfl | rfl | rfl | rfl | rfl | rfl <;>
    rcases hj with rfl | rfl | rfl | rfl | rfl | rfl | rfl | rfl <;> rfl

theorem check_tie_iff (b : Board) :
    check_tie b = true ↔ ∀ i j, InBoard i j → b i j ≠ '0' := by
  simp only [check_tie, Bool.not_eq_true', List.any_eq_false, List.mem_range, beq_iff_eq,
    ROWS, COLS, InBoard, Bool.not_eq_true, beq_eq_false_iff_ne, ne_eq, List.any_eq_true,
    not_exists, not_and]
  constructor
  · intro h i j ⟨h1, h2, h3, h4⟩
    have := h i.toNat (by omega) j.toNat (by omega)
    rwa [Int.toNat_of_nonneg h1, Int.toNat_of_nonneg h3] at this
  · intro h i hi j hj
    exact h i j ⟨by omega, by omega, by omega, by omega⟩

/-! ## The dispatcher on the well-formed commands -/

theorem write_reset_R (s : State) (rnd : Nat) :
    fourinarow_write s "RESET R".toList false rnd = (7, do_reset s 'R') := rfl

theorem write_reset_Y (s : State) (rnd : Nat) :
    fourinarow_write s "RESET Y".toList false rnd = (7, do_reset s 'Y') := rfl

theorem write_board (s : State) (rnd : Nat) :
    fourinarow_write s "BOARD".toList false rnd = (5, { s with display_board := true }) := rfl

theorem write_cturn (s : State) (rnd : Nat) :
    fourinarow_write s "CTURN".toList false rnd = (5, do_cturn s rnd) := rfl

theorem write_dropc (s : State) (rnd : Nat) (L : Char) (h : L ∈ "ABCDEFGH".toList) :
    fourinarow_write s ("DROPC ".toList ++ [L]) false rnd = (7, do_dropc s L) := by
  simp only [String.toList, List.mem_cons, List.mem_singleton, List.not_mem_nil,
    or_false] at h
  rcases h with rfl | rfl | rfl | rfl | rfl | rfl | rfl | rfl <;> rfl

theorem write_dropc_A (s : State) (rnd : Nat) :
    fourinarow_write s "DROPC A".toList false rnd = (7, do_dropc s 'A') := rfl

/-- C4. From any prior state, the write `RESET C` for `C` in `R`, `Y` leaves
the turn state at PlayerTurn (1), `player_color = C`, `cpu_color` the other
colour, and each of the 64 board cells empty. -/
theorem reset_starts_new_game (s : State) (rnd : Nat) :
    ((fourinarow_write s "RESET R".toList false rnd).2.game_state.player_turn = 1 ∧
      (fourinarow_write s "RESET R".toList false rnd).2.game_state.player_color = 'R' ∧
      (fourinarow_write s "RESET R".toList false rnd).2.game_state.cpu_color = 'Y' ∧
      ∀ i j, InBoard i j → (fourinarow_write s "RESET R".toList false rnd).2.board i j = '0') ∧
    ((fourinarow_write s "RESET Y".toList false rnd).2.game_state.player_turn = 1 ∧
      (fourinarow_write s "RESET Y".toList false rnd).2.game_state.player_color = 'Y' ∧
      (fourinarow_write s "RESET Y".toList false rnd).2.game_state.cpu_color = 'R' ∧
      ∀ i j, InBoard i j → (fourinarow_write s "RESET Y".toList false rnd).2.board i j = '0') := by
  rw [write_reset_R, write_reset_Y]
  exact ⟨⟨rfl, rfl, rfl, fun i j h => init_board_cell s.board i j h⟩,
    ⟨rfl, rfl, rfl, fun i j h => init_board_cell s.board i j h⟩⟩

/-! ## One legal move -/

theorem check_win_eq_false_iff (b : Board) (piece : Char) :
    check_win b piece = false ↔ ¬ ∃ r c d, RunOfFour b piece r c d := by
  rw [← Bool.not_eq_true]
  exact not_congr ⟨run_of_check_win b piece, fun ⟨r, c, d, h⟩ => check_win_of_run b piece r c d h⟩

theorem check_tie_eq_false_iff (b : Board) :
    check_tie b = false ↔ ∃ i j, InBoard i j ∧ b i j = '0' := by
  rw [← Bool.not_eq_true, check_tie_iff]
  push_neg
  rfl

/-- The random draw of `CTURN` names the column with index `rnd % 8`. -/
theorem char_to_col_draw (rnd : Nat) :
    char_to_col (draw_column rnd) = ((rnd % 8 : Nat) : Int) := by
  unfold draw_column
  have h : rnd % 8 < 8 := Nat.mod_lt _ (by decide)
  generalize rnd % 8 = m at h
  interval_cases m <;> rfl

/-- A successful `drop` on a column with an empty in-board cell. -/
theorem drop_of_not_full (b : Board) (column piece : Char)
    (h : ∃ i, InBoard i (char_to_col column) ∧ b i (char_to_col column) = '0') :
    ∃ i, InBoard i (char_to_col column) ∧ b i (char_to_col column) = '0' ∧
      (∀ k : Int, 0 ≤ k → k < i → b k (char_to_col column) ≠ '0') ∧
      drop b column piece = (true, setCell b i (char_to_col column) piece) := by
  obtain ⟨i0, hin, he0⟩ := h
  rcases drop_cases b column piece with ⟨i, hi, he, hlow, hd⟩ | ⟨hfull, _⟩
  · refine ⟨i, ⟨by omega, by exact_mod_cast hi, hin.2.2⟩, he, fun k hk0 hk => ?_, hd⟩
    have := hlow k.toNat (by omega)
    rwa [Int.toNat_of_nonneg hk0] at this
  · exfalso
    have := hfull i0.toNat (by have := hin.2.1; simp only [ROWS] at this ⊢; omega)
    rw [Int.toNat_of_nonneg hin.1] at this
    exact this he0

/-- The `DROPC` branch in PlayerTurn after a successful drop. -/
theorem do_dropc_of_drop (s : State) (L : Char) (b : Board)
    (ht : s.game_state.player_turn = 1)
    (hd : drop s.board L s.game_state.player_color = (true, b)) :
    do_dropc s L =
      if check_win b s.game_state.player_color then
        { s with board := b, game_state := { s.game_state with player_turn := 0 },
                 win := true }
      else if check_tie b then
        { s with board := b, game_state := { s.game_state with player_turn := 0 },
                 tie := true }
      else
        { s with board := b, game_state := { s.game_state with player_turn := 2 },
                 ok := true } := by
  simp [do_dropc, ht, hd]

/-- The `CTURN` branch in CpuTurn after a successful drop. -/
theorem do_cturn_of_drop (s : State) (rnd : Nat) (b : Board)
    (ht : s.game_state.player_turn = 2)
    (hd : drop s.board (draw_column rnd) s.game_state.cpu_color = (true, b)) :
    do_cturn s rnd =
      if check_win b s.game_state.cpu_color then
        { s with board := b, game_state := { s.game_state with player_turn := 0 },
                 loss := true }
      else if check_tie b then
        { s with board := b, game_state := { s.game_state with player_turn := 0 },
                 tie := true }
      else
        { s with board := b, game_state := { s.game_state with player_turn := 1 },
                 ok := true } := by
  simp [do_cturn, ht, hd]

theorem do_dropc_board (s : State) (L : Char) (b : Board)
    (ht : s.game_state.player_turn = 1)
    (hd : drop s.board L s.game_state.player_color = (true, b)) :
    (do_dropc s L).board = b ∧
      (do_dropc s L).game_state.player_color = s.game_state.player_color ∧
      (do_dropc s L).game_state.cpu_color = s.game_state.cpu_color := by
  rw [do_dropc_of_drop s L b ht hd]
  split_ifs <;> exact ⟨rfl, rfl, rfl⟩

theorem do_cturn_board (s : State) (rnd : Nat) (b : Board)
    (ht : s.game_state.player_turn = 2)
    (hd : drop s.board (draw_column rnd) s.game_state.cpu_color = (true, b)) :
    (do_cturn s rnd).board = b ∧
      (do_cturn s rnd).game_state.player_color = s.game_state.player_color ∧
      (do_cturn s rnd).game_state.cpu_color = s.game_state.cpu_color := by
  rw [do_cturn_of_drop s rnd b ht hd]
  split_ifs <;> exact ⟨rfl, rfl, rfl⟩

/-- Only the residue of the draw matters. -/
theorem do_cturn_mod (s : State) (rnd : Nat) : do_cturn s rnd = do_cturn s (rnd % 8) := by
  simp [do_cturn, draw_column, Nat.mod_mod]

theorem first_cturn_outcome (rnd : Nat) :
    (fourinarow_read (do_cturn after_first_move rnd) 0 false).1.out = "OK\n".toList ∧
      (do_cturn after_first_move rnd).game_state.player_turn = 1 := by
  rw [do_cturn_mod]
  have h : rnd % 8 < 8 := Nat.mod_lt _ (by decide)
  generalize rnd % 8 = m at h
  interval_cases m <;> decide!

/-- C5. Turn alternation.  In PlayerTurn a `DROPC` into a column that is not
full, leaving the player without four in a row and the board not full, moves
the turn state to CpuTurn; in CpuTurn a `CTURN` whose drawn column is not
full, leaving the computer without four in a row and the board not full, moves
it to PlayerTurn; in both cases the board changes only by the one placed piece
of the mover's colour.  Instance: from the freshly loaded module, after
`RESET R` and `DROPC A` the turn state is CpuTurn and Read returns `OK`, and
after the following `CTURN`, for every draw, Read returns one of `OK`, `TIE`,
`LOSE`, with PlayerTurn on `OK` and NoGame on `TIE` or `LOSE`. -/
theorem turn_alternation :
    (∀ (s : State) (L : Char) (rnd : Nat), L ∈ "ABCDEFGH".toList →
      s.game_state.player_turn = 1 →
      (∃ i, InBoard i (char_to_col L) ∧ s.board i (char_to_col L) = '0') →
      (¬ ∃ r c d, RunOfFour (fourinarow_write s ("DROPC ".toList ++ [L]) false rnd).2.board
        s.game_state.player_color r c d) →
      (∃ i j, InBoard i j ∧
        (fourinarow_write s ("DROPC ".toList ++ [L]) false rnd).2.board i j = '0') →
      (fourinarow_write s ("DROPC ".toList ++ [L]) false rnd).2.game_state.player_turn = 2 ∧
      ∃ i, InBoard i (char_to_col L) ∧ s.board i (char_to_col L) = '0' ∧
        (fourinarow_write s ("DROPC ".toList ++ [L]) false rnd).2.board =
          setCell s.board i (char_to_col L) s.game_state.player_color) ∧
    (∀ (s : State) (rnd : Nat),
      s.game_state.player_turn = 2 →
      (∃ i, InBoard i ((rnd % 8 : Nat) : Int) ∧ s.board i ((rnd % 8 : Nat) : Int) = '0') →
      (¬ ∃ r c d, RunOfFour (fourinarow_write s "CTURN".toList false rnd).2.board
        s.game_state.cpu_color r c d) →
      (∃ i j, InBoard i j ∧ (fourinarow_write s "CTURN".toList false rnd).2.board i j = '0') →
      (fourinarow_write s "CTURN".toList false rnd).2.game_state.player_turn = 1 ∧
      ∃ i, InBoard i ((rnd % 8 : Nat) : Int) ∧ s.board i ((rnd % 8 : Nat) : Int) = '0' ∧
        (fourinarow_write s "CTURN".toList false rnd).2.board =
          setCell s.board i ((rnd % 8 : Nat) : Int) s.game_state.cpu_color) ∧
    (∀ r1 r2 : Nat,
      let s1 := (fourinarow_write (fourinarow_write fresh "RESET R".toList false r1).2
        "DROPC A".toList false r2).2
      s1.game_state.player_turn = 2 ∧
      (fourinarow_read s1 0 false).1.out = "OK\n".toList ∧
      ∀ rnd : Nat,
        let s2 := (fourinarow_write (fourinarow_read s1 0 false).2 "CTURN".toList false rnd).2
        let out := (fourinarow_read s2 0 false).1.out
        (out = "OK\n".toList ∨ out = "TIE\n".toList ∨ out = "LOSE\n".toList) ∧
        (out = "OK\n".toList → s2.game_state.player_turn = 1) ∧
        (out = "TIE\n".toList ∨ out = "LOSE\n".toList → s2.game_state.player_turn = 0)) := by
  refine ⟨?_, ?_, ?_⟩
  · intro s L rnd hL ht hcol
    rw [write_dropc s rnd L hL]
    obtain ⟨i, hin, he, _, hd⟩ := drop_of_not_full s.board L s.game_state.player_color hcol
    intro hnowin hnotie
    have hb := (do_dropc_board s L _ ht hd).1
    rw [hb] at hnowin hnotie
    refine ⟨?_, i, hin, he, hb⟩
    rw [do_dropc_of_drop s L _ ht hd, (check_win_eq_false_iff _ _).2 hnowin,
      (check_tie_eq_false_iff _).2 hnotie]
    rfl
  · intro s rnd ht hcol
    rw [write_cturn s rnd]
    rw [← char_to_col_draw rnd] at hcol ⊢
    obtain ⟨i, hin, he, _, hd⟩ :=
      drop_of_not_full s.board (draw_column rnd) s.game_state.cpu_color hcol
    intro hnowin hnotie
    have hb := (do_cturn_board s rnd _ ht hd).1
    rw [hb] at hnowin hnotie
    refine ⟨?_, i, hin, he, hb⟩
    rw [do_cturn_of_drop s rnd _ ht hd, (check_win_eq_false_iff _ _).2 hnowin,
      (check_tie_eq_false_iff _).2 hnotie]
    rfl
  · intro r1 r2
    simp only [write_reset_R, write_dropc_A, write_cturn]
    refine ⟨by decide!, by decide!, fun rnd => ?_⟩
    have h := first_cturn_outcome rnd
    unfold after_first_move at h
    refine ⟨Or.inl h.1, fun _ => h.2, fun h2 => ?_⟩
    rw [h.1] at h2
    exact absurd h2 (by decide)

/-- Instance of C5: the first `DROPC A` of a new game hands the turn to the
computer, and the `CTURN` drawing column B hands it back. -/
theorem turn_alternation_witness :
    (fourinarow_write new_game_R ("DROPC ".toList ++ ['A']) false 0).2.game_state.player_turn = 2 ∧
    (fourinarow_write (do_dropc new_game_R 'A') "CTURN".toList false 1).2.game_state.player_turn
      = 1 :=
  ⟨(turn_alternation.1 new_game_R 'A' 0 (by decide) (by decide) ⟨0, by decide, by decide!⟩
      ((check_win_eq_false_iff _ _).1 (by decide!)) ⟨7, 7, by decide, by decide!⟩).1,
    (turn_alternation.2.1 (do_dropc new_game_R 'A') 1 (by decide!) ⟨0, by decide, by decide!⟩
      ((check_win_eq_false_iff _ _).1 (by decide!)) ⟨7, 7, by decide, by decide!⟩).1⟩

/-- C3, evaluated on two games in which every reply is read.  The player's
fourth piece in column A completes four in a row: the turn state becomes NoGame
and the `win` flag is set, but Read returns `OK`, not `WIN`, because the `ok`
flag of the earlier moves is still set.  Likewise the computer's fourth piece
in column B sets `loss` and ends the game, and Read returns `OK`, not `LOSE`. -/
theorem win_and_lose_replies_shadowed_by_ok :
    (run fresh trace_before_player_win).game_state.player_turn = 1 ∧
    check_win (run fresh trace_before_player_win).board 'R' = false ∧
    check_win (fourinarow_write (run fresh trace_before_player_win)
      "DROPC A".toList false 0).2.board 'R' = true ∧
    (fourinarow_write (run fresh trace_before_player_win)
      "DROPC A".toList false 0).2.game_state.player_turn = 0 ∧
    (fourinarow_write (run fresh trace_before_player_win)
      "DROPC A".toList false 0).2.win = true ∧
    (fourinarow_write (run fresh trace_before_player_win)
      "DROPC A".toList false 0).2.ok = true ∧
    (fourinarow_read (fourinarow_write (run fresh trace_before_player_win)
      "DROPC A".toList false 0).2 0 false).1.out = "OK\n".toList ∧
    (run fresh trace_before_cpu_win).game_state.player_turn = 2 ∧
    check_win (run fresh trace_before_cpu_win).board 'Y' = false ∧
    check_win (fourinarow_write (run fresh trace_before_cpu_win)
      "CTURN".toList false 1).2.board 'Y' = true ∧
    (fourinarow_write (run fresh trace_before_cpu_win)
      "CTURN".toList false 1).2.game_state.player_turn = 0 ∧
    (fourinarow_write (run fresh trace_before_cpu_win)
      "CTURN".toList false 1).2.loss = true ∧
    (fourinarow_write (run fresh trace_before_cpu_win)
      "CTURN".toList false 1).2.ok = true ∧
    (fourinarow_read (fourinarow_write (run fresh trace_before_cpu_win)
      "CTURN".toList false 1).2 0 false).1.out = "OK\n".toList := by
  decide!

/-- A move that completes four in a row ends the game and records the result:
`win` for the player's `DROPC`, `loss` for the computer's `CTURN`. -/
theorem winning_move_ends_game (s : State) (b : Board) :
    (∀ L, s.game_state.player_turn = 1 →
      drop s.board L s.game_state.player_color = (true, b) →
      check_win b s.game_state.player_color = true →
      (do_dropc s L).game_state.player_turn = 0 ∧ (do_dropc s L).win = true ∧
        (do_dropc s L).board = b) ∧
    (∀ rnd, s.game_state.player_turn = 2 →
      drop s.board (draw_column rnd) s.game_state.cpu_color = (true, b) →
      check_win b s.game_state.cpu_color = true →
      (do_cturn s rnd).game_state.player_turn = 0 ∧ (do_cturn s rnd).loss = true ∧
        (do_cturn s rnd).board = b) := by
  refine ⟨fun L ht hd hw => ?_, fun rnd ht hd hw => ?_⟩
  · rw [do_dropc_of_drop s L b ht hd, if_pos hw]
    exact ⟨rfl, rfl, rfl⟩
  · rw [do_cturn_of_drop s rnd b ht hd, if_pos hw]
    exact ⟨rfl, rfl, rfl⟩

/-! ## A `DROPC` out of turn -/

/-- In CpuTurn the `DROPC` branch only raises `outofturn`. -/
theorem do_dropc_cpu_turn (s : State) (L : Char) (ht : s.game_state.player_turn = 2) :
    do_dropc s L = { s with outofturn := true } := by
  simp [do_dropc, ht]

/-- C6, evaluated on a game in which every reply is read.  After `RESET R` and
`DROPC A` the turn state is CpuTurn; a further `DROPC B` leaves the board and
the session unchanged and sets `outofturn`, but Read returns `OK`, not `OOT`,
because the `ok` flag of the first move is still set. -/
theorem out_of_turn_reply_shadowed_by_ok :
    (run fresh trace_cpu_turn).game_state.player_turn = 2 ∧
    (fourinarow_read (run fresh trace_cpu_turn) 0 false).1.out = "OK\n".toList ∧
    (fourinarow_write (run fresh trace_cpu_turn) "DROPC B".toList false 0).2.board =
      (run fresh trace_cpu_turn).board ∧
    (fourinarow_write (run fresh trace_cpu_turn) "DROPC B".toList false 0).2.game_state =
      (run fresh trace_cpu_turn).game_state ∧
    (fourinarow_write (run fresh trace_cpu_turn) "DROPC B".toList false 0).2.outofturn = true ∧
    (fourinarow_write (run fresh trace_cpu_turn) "DROPC B".toList false 0).2.ok = true ∧
    (fourinarow_read (fourinarow_write (run fresh trace_cpu_turn) "DROPC B".toList false 0).2
      0 false).1.out = "OK\n".toList := by
  have ht : (run fresh trace_cpu_turn).game_state.player_turn = 2 := by decide!
  have hw : (fourinarow_write (run fresh trace_cpu_turn) "DROPC B".toList false 0).2 =
      { run fresh trace_cpu_turn with outofturn := true } :=
    (congrArg Prod.snd (write_dropc _ 0 'B' (by decide))).trans (do_dropc_cpu_turn _ 'B' ht)
  refine ⟨ht, by decide!, ?_, ?_, ?_, ?_, ?_⟩
  · rw [hw]
  · rw [hw]
  · rw [hw]
  · rw [hw]; decide!
  · rw [hw]; decide!

theorem noGameYet_fresh : NoGameYet fresh :=
  ⟨rfl, rfl, rfl, rfl, rfl, rfl, rfl, rfl⟩

theorem send_state (s : State) (off : Int) (f : Bool) (msg : List Char) (c : State) :
    (send s off f msg c).2 = if f then s else c := by
  unfold send
  split <;> rfl

theorem noGameYet_read (s : State) (off : Int) (f : Bool) (h : NoGameYet s) :
    NoGameYet (fourinarow_read s off f).2 := by
  obtain ⟨h1, h2, h3, h4, h5, h6, h7, h8⟩ := h
  unfold fourinarow_read
  split_ifs <;> simp only [send_state] <;> (try split_ifs) <;>
    exact ⟨h1, h2, by first | exact h3 | rfl, h4, by first | exact h5 | rfl,
      by first | exact h6 | rfl, by first | exact h7 | rfl, by first | exact h8 | rfl⟩

theorem do_dropc_no_game (s : State) (L : Char) (ht : s.game_state.player_turn = 0) :
    do_dropc s L = { s with nogame := true } := by
  simp [do_dropc, ht]

theorem do_cturn_no_game (s : State) (rnd : Nat) (ht : s.game_state.player_turn = 0) :
    do_cturn s rnd = { s with nogame := true } := by
  simp [do_cturn, ht]

theorem noGameYet_write (s : State) (buf : List Char) (f : Bool) (rnd : Nat)
    (h : NoGameYet s) (hop : (Op.write buf f rnd).accepted_reset = false) :
    NoGameYet (fourinarow_write s buf f rnd).2 := by
  have hs := h
  obtain ⟨h1, h2, h3, h4, h5, h6, h7, h8⟩ := h
  unfold fourinarow_write
  split_ifs with hlen hf
  · exact hs
  · exact hs
  · have hlen' : buf.length ≤ MAX_CMD_LEN := by omega
    have hf' : f = false := by simpa using hf
    simp only [dispatch]
    split_ifs with hb hr hd hc
    · exact ⟨h1, h2, h3, h4, h5, h6, h7, h8⟩
    · have hb' : strcmp_eq (command_text buf) "BOARD" = false := by simpa using hb
      have : (match sscanf_c (command_text buf) "RESET".toList with
          | some player => player == 'R' || player == 'Y'
          | none => false) = false := by
        simpa [Op.accepted_reset, hlen', hf', hb', hr] using hop
      split
      · rename_i player hp
        rw [hp] at this
        have hnot : ¬ (player = 'R' ∨ player = 'Y') := by simpa using this
        rw [if_neg hnot]
        exact hs
      · exact hs
    · split
      · split_ifs
        · rw [do_dropc_no_game s _ h1]
          exact ⟨h1, h2, h3, h4, h5, h6, h7, h8⟩
        · exact hs
      · exact hs
    · rw [do_cturn_no_game s _ h1]
      exact ⟨h1, h2, h3, h4, h5, h6, h7, h8⟩
    · exact hs

theorem noGameYet_run (ops : List Op) (hops : ∀ op ∈ ops, op.accepted_reset = false) :
    ∀ s, NoGameYet s → NoGameYet (run s ops) := by
  induction ops with
  | nil => intro s h; exact h
  | cons op ops ih =>
    intro s h
    have hop := hops op (List.mem_cons_self _ _)
    have hrest : ∀ o ∈ ops, o.accepted_reset = false :=
      fun o ho => hops o (List.mem_cons_of_mem _ ho)
    show NoGameYet (run (step s op) ops)
    apply ih hrest
    cases op with
    | write buf f rnd => exact noGameYet_write s buf f rnd h hop
    | read off f => exact noGameYet_read s off f h

/-- Read with only `nogame` pending among the replies it serves first. -/
theorem read_nogame (s : State) (hd : s.display_board = false) (hr : s.reset = false)
    (hk : s.ok = false) (hn : s.nogame = true) :
    fourinarow_read s 0 false =
      (⟨7, "NOGAME\n".toList, 7⟩, { s with nogame := false }) := by
  simp [fourinarow_read, send, hd, hr, hk, hn]

/-- Read with the board display pending. -/
theorem read_display (s : State) (hd : s.display_board = true) :
    fourinarow_read s 0 false =
      (⟨(board_text s.board).length, board_text s.board, 0 + (board_text s.board).length⟩,
        { s with display_board := false }) := by
  simp [fourinarow_read, send, hd]

/-- C7 as stated fails: with no `RESET` ever accepted, `BOARD` followed by
`DROPC A` leaves the board display pending, and the next Read returns the
board display, not `NOGAME`. -/
theorem nogame_reply_behind_board_display :
    (∀ op ∈ [wr "BOARD" 0], op.accepted_reset = false) ∧
    (fourinarow_read (fourinarow_write (run fresh [wr "BOARD" 0])
      "DROPC A".toList false 0).2 0 false).1.out =
      ("  ABCDEFGH\n8 00000000\n7 00000000\n6 00000000\n5 00000000\n" ++
        "4 00000000\n3 00000000\n2 00000000\n1 00000000\n").toList ∧
    (fourinarow_read (fourinarow_write (run fresh [wr "BOARD" 0])
      "DROPC A".toList false 0).2 0 false).1.out ≠ "NOGAME\n".toList := by
  decide!

/-- C7, amended.  After any sequence of calls that contains no accepted
`RESET`, a write `DROPC L` with `L` in `A..H` leaves the board entirely empty
and the turn state NoGame; the next Read at offset 0 returns `NOGAME` when no
board display was pending, and otherwise returns the board display, the Read
after it returning `NOGAME`. -/
theorem dropc_before_reset (ops : List Op)
    (hops : ∀ op ∈ ops, op.accepted_reset = false)
    (L : Char) (hL : L ∈ "ABCDEFGH".toList) (rnd : Nat) :
    (∀ i j, InBoard i j →
      (fourinarow_write (run fresh ops) ("DROPC ".toList ++ [L]) false rnd).2.board i j = '0') ∧
    (fourinarow_write (run fresh ops) ("DROPC ".toList ++ [L]) false rnd).2.game_state.player_turn
      = 0 ∧
    ((run fresh ops).display_board = false →
      (fourinarow_read (fourinarow_write (run fresh ops) ("DROPC ".toList ++ [L]) false rnd).2
        0 false).1.out = "NOGAME\n".toList) ∧
    ((run fresh ops).display_board = true →
      (fourinarow_read (fourinarow_write (run fresh ops) ("DROPC ".toList ++ [L]) false rnd).2
        0 false).1.out =
        board_text (fourinarow_write (run fresh ops) ("DROPC ".toList ++ [L]) false rnd).2.board ∧
      (fourinarow_read (fourinarow_read (fourinarow_write (run fresh ops)
        ("DROPC ".toList ++ [L]) false rnd).2 0 false).2 0 false).1.out = "NOGAME\n".toList) := by
  have h := noGameYet_run ops hops fresh noGameYet_fresh
  rw [write_dropc _ rnd L hL]
  simp only [do_dropc_no_game _ L h.turn]
  refine ⟨fun i j hij => ?_, h.turn, fun hd => ?_, fun hd => ?_⟩
  · show (run fresh ops).board i j = '0'
    rw [h.board]
    exact init_board_cell _ i j hij
  · rw [read_nogame { run fresh ops with nogame := true } hd h.reset h.ok rfl]
  · rw [read_display { run fresh ops with nogame := true } hd]
    refine ⟨rfl, ?_⟩
    rw [read_nogame { run fresh ops with nogame := true, display_board := false } rfl
      h.reset h.ok rfl]

/-- Instance of C7, amended: after `BOARD`, a read and `CTURN`, a `DROPC C` is
answered by `NOGAME`. -/
theorem dropc_before_reset_witness :
    (fourinarow_read (fourinarow_write (run fresh [wr "BOARD" 0, rd, wr "CTURN" 3])
      ("DROPC ".toList ++ ['C']) false 0).2 0 false).1.out = "NOGAME\n".toList :=
  (dropc_before_reset [wr "BOARD" 0, rd, wr "CTURN" 3] (by decide) 'C' (by decide) 0).2.2.1
    (by decide!)

theorem board_text_ne_nil (b : Board) : board_text b ≠ [] := by
  simp [board_text]

theorem reply_text_ne_nil (b : Board) (f : Flag) : reply_text b f ≠ [] := by
  cases f <;> first | exact board_text_ne_nil b | simp [reply_text]

theorem first_reply_eq_nil (b : Board) (l : List Flag) : first_reply b l = [] ↔ l = [] := by
  cases l with
  | nil => simp [first_reply]
  | cons f l => simp [first_reply, reply_text_ne_nil]

/-- With `ok` clear, a read at offset 0 sends the message of the first set flag
in the order of its branches and clears that flag only. -/
theorem read_served (s : State) (hk : s.ok = false) :
    (fourinarow_read s 0 false).1.out = first_reply s.board (served s) ∧
    (fourinarow_read s 0 false).1.ret = (first_reply s.board (served s)).length ∧
    served (fourinarow_read s 0 false).2 = (served s).tail ∧
    (fourinarow_read s 0 false).2.ok = false ∧
    (fourinarow_read s 0 false).2.board = s.board ∧
    (fourinarow_read s 0 false).2.game_state = s.game_state := by
  obtain ⟨g, b, f1, f2, f3, f4, f5, f6, f7, f8, f9, f10⟩ := s
  simp only at hk
  subst hk
  cases f1 <;> cases f2 <;> cases f9 <;> cases f5 <;> cases f7 <;> cases f6 <;> cases f10 <;>
    simp [fourinarow_read, send, served, read_order, State.flag, first_reply, reply_text]

/-- C8 as stated fails: from the freshly loaded module, after `CTURN` (which
sets `nogame`) and `BOARD`, the first Read returns the board display and the
second Read, with no write in between, returns `NOGAME` instead of zero
bytes. -/
theorem second_read_returns_other_reply :
    (fourinarow_read (run fresh [wr "CTURN" 0, wr "BOARD" 0]) 0 false).1.out ≠ [] ∧
    (fourinarow_read (fourinarow_read (run fresh [wr "CTURN" 0, wr "BOARD" 0]) 0 false).2
      0 false).1.out = "NOGAME\n".toList ∧
    (fourinarow_read (fourinarow_read (run fresh [wr "CTURN" 0, wr "BOARD" 0]) 0 false).2
      0 false).1.ret = 7 := by
  decide!

/-- C8, amended.  In a state whose `ok` flag is clear, a Read at offset 0
returns the message of the first set flag in the order board display, reset
(`OK`), `NOGAME`, `WIN`, `TIE`, `LOSE`, `OOT`, and clears that flag only,
leaving board and session as they were; it returns zero bytes exactly when none
of these flags is set, and a second Read with no write in between returns zero
bytes exactly when at most one of them was set. -/
theorem read_drains_one_reply (s : State) (hk : s.ok = false) :
    (fourinarow_read s 0 false).1.out = first_reply s.board (served s) ∧
    served (fourinarow_read s 0 false).2 = (served s).tail ∧
    (fourinarow_read s 0 false).2.board = s.board ∧
    (fourinarow_read s 0 false).2.game_state = s.game_state ∧
    ((fourinarow_read s 0 false).1.out = [] ↔ served s = []) ∧
    (served s = [] → (fourinarow_read s 0 false).1.ret = 0) ∧
    ((fourinarow_read (fourinarow_read s 0 false).2 0 false).1.out = [] ↔
      (served s).length ≤ 1) := by
  obtain ⟨h1, h2, h3, h4, h5, h6⟩ := read_served s hk
  obtain ⟨k1, _, _, _, _, _⟩ := read_served _ h4
  refine ⟨h1, h3, h5, h6, ?_, ?_, ?_⟩
  · rw [h1, first_reply_eq_nil]
  · intro h
    rw [h2, h]
    rfl
  · rw [k1, first_reply_eq_nil, h3]
    cases served s with
    | nil => simp
    | cons f l => cases l <;> simp

/-- Instance of C8, amended: with only the board display pending, the first
Read returns it and the second returns zero bytes. -/
theorem read_drains_one_reply_witness :
    (fourinarow_read (run fresh [wr "BOARD" 0]) 0 false).1.out =
      first_reply (run fresh [wr "BOARD" 0]).board [Flag.display_board] ∧
    (fourinarow_read (fourinarow_read (run fresh [wr "BOARD" 0]) 0 false).2 0 false).1.out = [] :=
  ⟨(read_drains_one_reply (run fresh [wr "BOARD" 0]) (by decide!)).1,
    (read_drains_one_reply (run fresh [wr "BOARD" 0]) (by decide!)).2.2.2.2.2.2.2 (by decide!)⟩

theorem do_dropc_flag (s : State) (L : Char) (f : Flag) :
    (do_dropc s L).flag f = (s.flag f || (do_dropc (no_flags s) L).flag f) := by
  simp only [do_dropc, no_flags]
  split_ifs <;> cases f <;>
    simp only [State.flag, Bool.or_true, Bool.or_false, Bool.false_or, Bool.or_self]

theorem do_cturn_flag (s : State) (rnd : Nat) (f : Flag) :
    (do_cturn s rnd).flag f = (s.flag f || (do_cturn (no_flags s) rnd).flag f) := by
  simp only [do_cturn, no_flags]
  split_ifs <;> cases f <;>
    simp only [State.flag, Bool.or_true, Bool.or_false, Bool.false_or, Bool.or_self]

theorem do_reset_flag (s : State) (p : Char) (f : Flag) :
    (do_reset s p).flag f = (s.flag f || (do_reset (no_flags s) p).flag f) := by
  simp only [do_reset, no_flags]
  cases f <;>
    simp only [State.flag, Bool.or_true, Bool.or_false, Bool.false_or, Bool.or_self]

theorem no_flags_flag (s : State) (f : Flag) : (no_flags s).flag f = false := by
  cases f <;> rfl

theorem dispatch_flag (s : State) (cmd : List Char) (rnd : Nat) (f : Flag) :
    (dispatch s cmd rnd).flag f = (s.flag f || (dispatch (no_flags s) cmd rnd).flag f) := by
  unfold dispatch
  split_ifs
  · cases f <;>
      simp only [State.flag, no_flags, Bool.or_true, Bool.or_false, Bool.false_or, Bool.or_self]
  · split
    · split_ifs
      · exact do_reset_flag s _ f
      · rw [no_flags_flag, Bool.or_false]
    · rw [no_flags_flag, Bool.or_false]
  · split
    · split_ifs
      · exact do_dropc_flag s _ f
      · rw [no_flags_flag, Bool.or_false]
    · rw [no_flags_flag, Bool.or_false]
  · exact do_cturn_flag s rnd f
  · rw [no_flags_flag, Bool.or_false]

/-- A write never clears a flag: afterwards a flag is set exactly when it was
set before or the command sets it. -/
theorem write_flag (s : State) (buf : List Char) (rnd : Nat) (f : Flag) :
    (fourinarow_write s buf false rnd).2.flag f =
      (s.flag f || (fourinarow_write (no_flags s) buf false rnd).2.flag f) := by
  unfold fourinarow_write
  split_ifs
  · show s.flag f = (s.flag f || (no_flags s).flag f)
    rw [no_flags_flag, Bool.or_false]
  · contradiction
  · exact dispatch_flag s _ rnd f

theorem mem_response_of (s : State) (buf : List Char) (rnd : Nat) (f : Flag) :
    f ∈ response_of s buf rnd ↔ (fourinarow_write (no_flags s) buf false rnd).2.flag f = true := by
  simp only [response_of, List.mem_filter, and_iff_right_iff_imp]
  intro _
  cases f <;> decide

theorem flag_after_write (s : State) (buf : List Char) (rnd : Nat) (f0 : Flag)
    (h : response_of s buf rnd = [f0]) (f : Flag) :
    (fourinarow_write s buf false rnd).2.flag f = (s.flag f || decide (f = f0)) := by
  rw [write_flag]
  congr 1
  have := mem_response_of s buf rnd f
  rw [h, List.mem_singleton] at this
  rw [Bool.eq_iff_iff, decide_eq_true_iff]
  exact this.symm

theorem filter_two_flags (f1 f2 : Flag) (hf1 : f1 ≠ .ok) (hf2 : f2 ≠ .ok) :
    read_order.filter (fun f => decide (f = f1) || decide (f = f2)) =
      both_in_read_order f1 f2 := by
  cases f1 <;> cases f2 <;> first | rfl | exact absurd rfl hf1 | exact absurd rfl hf2

/-- C9 as stated fails: from the freshly loaded module (no response pending),
after `BOARD` then `RESET R` with no Read in between, the next Read returns
the board display, which is the first command's response, and the Read after it
returns `OK`, the second command's response, instead of zero bytes. -/
theorem first_reply_survives_second_write :
    served fresh = [] ∧ fresh.ok = false ∧
    response_of fresh "BOARD".toList 0 = [Flag.display_board] ∧
    response_of (fourinarow_write fresh "BOARD".toList false 0).2 "RESET R".toList 0 =
      [Flag.reset] ∧
    (fourinarow_read (run fresh [wr "BOARD" 0, wr "RESET R" 0]) 0 false).1.out =
      ("  ABCDEFGH\n8 00000000\n7 00000000\n6 00000000\n5 00000000\n" ++
        "4 00000000\n3 00000000\n2 00000000\n1 00000000\n").toList ∧
    (fourinarow_read (run fresh [wr "BOARD" 0, wr "RESET R" 0]) 0 false).1.out ≠ "OK\n".toList ∧
    (fourinarow_read (fourinarow_read (run fresh [wr "BOARD" 0, wr "RESET R" 0]) 0 false).2
      0 false).1.out = "OK\n".toList := by
  decide!

/-- C9, amended.  From a state with no flag set, let a first write set the
response flag `f1` and a second write, with no Read in between, set `f2`,
neither being the `ok` of a move.  Then both flags are set afterwards (once if
they are the same flag) and Reads at offset 0 serve them in the order of the
branches of read (board display, `OK`, `NOGAME`, `WIN`, `TIE`, `LOSE`, `OOT`),
not in the order of writing: the first Read returns the earlier of the two in
that order, the second Read the other one (zero bytes if they are the same
flag), and the third Read zero bytes. -/
theorem two_writes_both_pending (s : State) (buf1 buf2 : List Char) (rnd1 rnd2 : Nat)
    (f1 f2 : Flag)
    (h0 : ∀ f, s.flag f = false)
    (h1 : response_of s buf1 rnd1 = [f1])
    (h2 : response_of (fourinarow_write s buf1 false rnd1).2 buf2 rnd2 = [f2])
    (hf1 : f1 ≠ .ok) (hf2 : f2 ≠ .ok) :
    served (fourinarow_write (fourinarow_write s buf1 false rnd1).2 buf2 false rnd2).2 =
      both_in_read_order f1 f2 ∧
    (fourinarow_read
      (fourinarow_write (fourinarow_write s buf1 false rnd1).2 buf2 false rnd2).2
      0 false).1.out =
      first_reply (fourinarow_write (fourinarow_write s buf1 false rnd1).2 buf2 false rnd2).2.board
        (both_in_read_order f1 f2) ∧
    (fourinarow_read (fourinarow_read
      (fourinarow_write (fourinarow_write s buf1 false rnd1).2 buf2 false rnd2).2
      0 false).2 0 false).1.out =
      first_reply (fourinarow_write (fourinarow_write s buf1 false rnd1).2 buf2 false rnd2).2.board
        (both_in_read_order f1 f2).tail ∧
    (fourinarow_read (fourinarow_read (fourinarow_read
      (fourinarow_write (fourinarow_write s buf1 false rnd1).2 buf2 false rnd2).2
      0 false).2 0 false).2 0 false).1.out = [] := by
  generalize hs2 : (fourinarow_write (fourinarow_write s buf1 false rnd1).2 buf2 false rnd2).2
    = s2
  have hflag : ∀ f, s2.flag f = (decide (f = f1) || decide (f = f2)) := by
    intro f
    rw [← hs2, flag_after_write _ buf2 rnd2 f2 h2, flag_after_write s buf1 rnd1 f1 h1, h0,
      Bool.false_or]
  have hserved : served s2 = both_in_read_order f1 f2 := by
    rw [← filter_two_flags f1 f2 hf1 hf2]
    unfold served
    congr 1
    funext f
    exact hflag f
  have hok : s2.ok = false := by
    have := hflag .ok
    simp only [State.flag] at this
    rw [this]
    simp [Ne.symm hf1, Ne.symm hf2]
  obtain ⟨a1, _, a3, a4, a5, _⟩ := read_served s2 hok
  obtain ⟨b1, _, b3, b4, b5, _⟩ := read_served _ a4
  obtain ⟨c1, _, _, _, _, _⟩ := read_served _ b4
  refine ⟨hserved, ?_, ?_, ?_⟩
  · rw [a1, hserved]
  · rw [b1, a3, a5, hserved]
  · rw [c1, b3, a3, hserved]
    unfold both_in_read_order
    split_ifs <;> rfl

/-- Instance of C9, amended: after `CTURN` then `BOARD` the board display is
served before `NOGAME`. -/
theorem two_writes_both_pending_witness :
    served (fourinarow_write (fourinarow_write fresh "CTURN".toList false 0).2
      "BOARD".toList false 0).2 = [Flag.display_board, Flag.nogame] :=
  (two_writes_both_pending fresh "CTURN".toList "BOARD".toList 0 0 .nogame .display_board
    (fun f => by cases f <;> rfl) (by decide!) (by decide!) (by decide) (by decide)).1

theorem skip_spaces_head (t : List Char) (c : Char) (h : (skip_spaces t).head? = some c) :
    ∃ ws rest, (∀ w ∈ ws, isspace w = true) ∧ t = ws ++ c :: rest := by
  refine ⟨t.takeWhile isspace, (t.dropWhile isspace).tail, ?_, ?_⟩
  · intro w hw
    exact (List.mem_takeWhile_imp hw)
  · have hd : t.dropWhile isspace = c :: (t.dropWhile isspace).tail := by
      unfold skip_spaces at h
      cases hdw : t.dropWhile isspace with
      | nil => rw [hdw] at h; simp at h
      | cons a l =>
        rw [hdw] at h
        simp only [List.head?_cons, Option.some.injEq] at h
        rw [h, List.tail_cons]
    rw [← hd, List.takeWhile_append_dropWhile]

theorem sscanf_c_some (lit cmd : List Char) (c : Char) (h : sscanf_c cmd lit = some c) :
    ∃ ws rest, (∀ w ∈ ws, isspace w = true) ∧ cmd = lit ++ (ws ++ c :: rest) := by
  induction lit generalizing cmd with
  | nil =>
    rw [sscanf_c] at h
    simpa using skip_spaces_head cmd c h
  | cons l ls ih =>
    cases cmd with
    | nil => simp [sscanf_c] at h
    | cons a as =>
      rw [sscanf_c] at h
      split_ifs at h with hla
      obtain ⟨ws, rest, hws, he⟩ := ih as h
      exact ⟨ws, rest, hws, by rw [he, hla]; rfl⟩

theorem is_column_iff (c : Char) : is_column c = true ↔ c ∈ "ABCDEFGH".toList := by
  simp only [is_column, String.toList, Bool.or_eq_true, beq_iff_eq, List.mem_cons,
    List.mem_singleton, List.not_mem_nil, or_false, or_assoc]

/-- C10, amended.  Take the command text of an input: the bytes before the
first NUL, after one trailing newline is dropped.  If it is neither `BOARD`
nor `CTURN`, nor `RESET` followed by any white space (none included), `R` or
`Y` and anything else, nor `DROPC` followed by any white space (none
included), a letter `A..H` and anything else, then the write changes nothing:
board, session and every flag stay as they were. -/
theorem unrecognised_input_changes_nothing (s : State) (buf : List Char)
    (copy_fails : Bool) (rnd : Nat)
    (hB : command_text buf ≠ "BOARD".toList)
    (hC : command_text buf ≠ "CTURN".toList)
    (hR : ¬ LooseForm "RESET".toList (fun c => c = 'R' ∨ c = 'Y') (command_text buf))
    (hD : ¬ LooseForm "DROPC".toList (fun c => c ∈ "ABCDEFGH".toList) (command_text buf)) :
    (fourinarow_write s buf copy_fails rnd).2 = s := by
  unfold fourinarow_write
  split_ifs
  · rfl
  · rfl
  · show dispatch s (command_text buf) rnd = s
    unfold dispatch
    split_ifs with h1 h2 h3 h4
    · exact absurd (by simpa [strcmp_eq] using h1) hB
    · split
      · rename_i player hp
        split_ifs with hcol
        · obtain ⟨ws, rest, hws, he⟩ := sscanf_c_some _ _ _ hp
          exact absurd ⟨ws, player, rest, hws, hcol, he⟩ hR
        · rfl
      · rfl
    · split
      · rename_i column hp
        split_ifs with hcol
        · obtain ⟨ws, rest, hws, he⟩ := sscanf_c_some _ _ _ hp
          exact absurd ⟨ws, column, rest, hws, (is_column_iff column).1 hcol, he⟩ hD
        · rfl
      · rfl
    · exact absurd (by simpa [strcmp_eq] using h4) hC
    · rfl

theorem sscanf_c_append (lit t : List Char) :
    sscanf_c (lit ++ t) lit = (skip_spaces t).head? := by
  induction lit with
  | nil => rw [List.nil_append, sscanf_c]
  | cons l ls ih => rw [List.cons_append, sscanf_c, if_pos rfl, ih]

/-- The loose forms are exactly the texts on which the `sscanf` of a branch
yields a byte the branch accepts. -/
theorem looseForm_iff (lit cmd : List Char) (p : Char → Prop)
    (hp : ∀ c, p c → isspace c = false) :
    LooseForm lit p cmd ↔ ∃ c, sscanf_c cmd lit = some c ∧ p c := by
  constructor
  · rintro ⟨ws, c, rest, hws, hc, rfl⟩
    refine ⟨c, ?_, hc⟩
    rw [sscanf_c_append, skip_spaces, List.dropWhile_append_of_pos hws,
      List.dropWhile_cons_of_neg (by simp [hp c hc])]
    rfl
  · rintro ⟨c, h, hc⟩
    obtain ⟨ws, rest, hws, he⟩ := sscanf_c_some lit cmd c h
    exact ⟨ws, c, rest, hws, hc, he⟩

/-- The loose forms of `RESET` and `DROPC` are acted on: the text reaches the
branch and its argument is the first byte after the white space. -/
theorem loose_form_is_dispatched (s : State) (cmd : List Char) (rnd : Nat) :
    (LooseForm "RESET".toList (fun c => c = 'R' ∨ c = 'Y') cmd →
      ∃ c, (c = 'R' ∨ c = 'Y') ∧ dispatch s cmd rnd = do_reset s c) ∧
    (LooseForm "DROPC".toList (fun c => c ∈ "ABCDEFGH".toList) cmd →
      ∃ c, c ∈ "ABCDEFGH".toList ∧ dispatch s cmd rnd = do_dropc s c) := by
  constructor
  · intro h
    have h' := h
    obtain ⟨ws, c, rest, hws, hc, rfl⟩ := h
    obtain ⟨c', hs, hc'⟩ := (looseForm_iff _ _ _ (by rintro c (rfl | rfl) <;> decide)).1 h'
    refine ⟨c', hc', ?_⟩
    have h1 : strcmp_eq ("RESET".toList ++ (ws ++ c :: rest)) "BOARD" = false := by
      simp [strcmp_eq, String.toList]
    have h2 : strncmp_eq ("RESET".toList ++ (ws ++ c :: rest)) "RESET" 5 = true := by
      simp [strncmp_eq, String.toList]
    simp only [dispatch, h1, h2, hs, if_pos hc', if_true, Bool.false_eq_true, if_false]
  · intro h
    have h' := h
    obtain ⟨ws, c, rest, hws, hc, rfl⟩ := h
    obtain ⟨c', hs, hc'⟩ := (looseForm_iff _ _ _ (by
      intro c hc
      simp only [String.toList, List.mem_cons, List.mem_singleton, List.not_mem_nil,
        or_false] at hc
      rcases hc with rfl | rfl | rfl | rfl | rfl | rfl | rfl | rfl <;> decide)).1 h'
    refine ⟨c', hc', ?_⟩
    have h1 : strcmp_eq ("DROPC".toList ++ (ws ++ c :: rest)) "BOARD" = false := by
      simp [strcmp_eq, String.toList]
    have h2 : strncmp_eq ("DROPC".toList ++ (ws ++ c :: rest)) "RESET" 5 = false := by
      simp [strncmp_eq, String.toList]
    have h3 : strncmp_eq ("DROPC".toList ++ (ws ++ c :: rest)) "DROPC" 5 = true := by
      simp [strncmp_eq, String.toList]
    simp only [dispatch, h1, h2, h3, hs, (is_column_iff c').2 hc', if_true,
      Bool.false_eq_true, if_false]

/-- C10 as stated fails: `RESETR` and `RESET RX` start a game as `RESET R`
does, and `DROPCA` and `DROPC AB` drop a piece into column A as `DROPC A`
does. -/
theorem loose_inputs_are_executed :
    fresh.game_state.player_turn = 0 ∧ fresh.reset = false ∧
    (fourinarow_write fresh "RESETR".toList false 0).2.game_state.player_turn = 1 ∧
    (fourinarow_write fresh "RESETR".toList false 0).2.game_state.player_color = 'R' ∧
    (fourinarow_write fresh "RESETR".toList false 0).2.reset = true ∧
    (fourinarow_write fresh "RESET RX".toList false 0).2.game_state.player_turn = 1 ∧
    (fourinarow_write fresh "RESET RX".toList false 0).2.reset = true ∧
    new_game_R.game_state.player_turn = 1 ∧ new_game_R.board 0 0 = '0' ∧
    new_game_R.ok = false ∧
    (fourinarow_write new_game_R "DROPCA".toList false 0).2.board 0 0 = 'R' ∧
    (fourinarow_write new_game_R "DROPCA".toList false 0).2.game_state.player_turn = 2 ∧
    (fourinarow_write new_game_R "DROPCA".toList false 0).2.ok = true ∧
    (fourinarow_write new_game_R "DROPC AB".toList false 0).2.board 0 0 = 'R' ∧
    (fourinarow_write new_game_R "DROPC AB".toList false 0).2.game_state.player_turn = 2 ∧
    (fourinarow_write new_game_R "DROPC AB".toList false 0).2.ok = true := by
  decide!

/-- Instance of C10, amended: `RESET X` and `DROPC I` change nothing. -/
theorem unrecognised_input_changes_nothing_witness :
    (fourinarow_write new_game_R "RESET X\n".toList false 0).2 = new_game_R ∧
    (fourinarow_write new_game_R "DROPC I".toList false 0).2 = new_game_R :=
  ⟨unrecognised_input_changes_nothing new_game_R "RESET X\n".toList false 0
      (by decide) (by decide)
      (fun h => by
        obtain ⟨c, hs, hc⟩ := (looseForm_iff _ _ _ (by rintro c (rfl | rfl) <;> decide)).1 h
        have hx : sscanf_c (command_text "RESET X\n".toList) "RESET".toList = some 'X' := by
          decide
        rw [hx] at hs
        cases hs
        revert hc
        decide)
      (fun h => by
        obtain ⟨ws, c, rest, _, _, he⟩ := h
        have hx : command_text "RESET X\n".toList = "RESET X".toList := by decide
        rw [hx] at he
        simp [String.toList] at he),
    unrecognised_input_changes_nothing new_game_R "DROPC I".toList false 0
      (by decide) (by decide)
      (fun h => by
        obtain ⟨ws, c, rest, _, _, he⟩ := h
        have hx : command_text "DROPC I".toList = "DROPC I".toList := by decide
        rw [hx] at he
        simp [String.toList] at he)
      (fun h => by
        have hsp : ∀ c, c ∈ "ABCDEFGH".toList → isspace c = false := by
          intro c hc
          simp only [String.toList, List.mem_cons, List.mem_singleton, List.not_mem_nil,
            or_false] at hc
          rcases hc with rfl | rfl | rfl | rfl | rfl | rfl | rfl | rfl <;> decide
        obtain ⟨c, hs, hc⟩ := (looseForm_iff _ _ _ hsp).1 h
        have hx : sscanf_c (command_text "DROPC I".toList) "DROPC".toList = some 'I' := by
          decide
        rw [hx] at hs
        cases hs
        revert hc
        decide)⟩

/-! ## The `ok` flag -/

/-- Induction over the calls that lead to a reachable state. -/
theorem reachable_induction (P : State → Prop) (h0 : P fresh)
    (hstep : ∀ s op, P s → P (step s op)) : ∀ s, Reachable s → P s := by
  have key : ∀ (ops : List Op) (s : State), P s → P (run s ops) := by
    intro ops
    induction ops with
    | nil => intro s h; exact h
    | cons op ops ih => intro s h; exact ih _ (hstep s op h)
  rintro s ⟨ops, rfl⟩
  exact key ops fresh h0

/-- No call clears the `ok` flag. -/
theorem ok_is_never_cleared (s : State) (op : Op) (h : s.ok = true) : (step s op).ok = true := by
  cases op with
  | write buf f rnd =>
    cases f with
    | true =>
      simp only [step, fourinarow_write]
      split_ifs <;> exact h
    | false =>
      have := write_flag s buf rnd .ok
      simp only [State.flag] at this
      simp only [step, this, h, Bool.true_or]
  | read off f =>
    simp only [step, fourinarow_read]
    split_ifs <;> simp only [send_state] <;> (try split_ifs) <;> exact h

/-- Once `ok` is set, a Read at offset 0 returns the board display or `OK`. -/
theorem read_with_ok_set (s : State) (h : s.ok = true) :
    (fourinarow_read s 0 false).1.out = board_text s.board ∨
      (fourinarow_read s 0 false).1.out = "OK\n".toList := by
  cases hd : s.display_board
  · right
    simp [fourinarow_read, send, hd, h]
  · left
    simp [fourinarow_read, send, hd]

/-- In every reachable state in CpuTurn the `ok` flag is set. -/
theorem ok_set_in_cpu_turn (s : State) (hr : Reachable s)
    (ht : s.game_state.player_turn = 2) : s.ok = true := by
  revert ht
  refine reachable_induction (fun s => s.game_state.player_turn = 2 → s.ok = true)
    (fun h => absurd h (by decide)) ?_ s hr
  intro s op ih
  cases op with
  | read off f =>
    intro ht
    have ht' : s.game_state.player_turn = 2 := by
      revert ht
      simp only [step, fourinarow_read]
      split_ifs <;> simp only [send_state] <;> (try split_ifs) <;> exact id
    exact ok_is_never_cleared s _ (ih ht')
  | write buf f rnd =>
    simp only [step, fourinarow_write]
    split_ifs
    · exact ih
    · exact ih
    · simp only [dispatch]
      split_ifs
      · exact ih
      · split
        · split_ifs
          · intro ht
            exact absurd ht (by simp [do_reset])
          · exact ih
        · exact ih
      · split
        · split_ifs
          · simp only [do_dropc]
            split_ifs <;> first | exact ih | (intro ht; first | rfl | exact absurd ht (by simp))
          · exact ih
        · exact ih
      · simp only [do_cturn]
        split_ifs <;> first | exact ih | (intro ht; first | rfl | exact absurd ht (by simp))
      · exact ih

/-! ## A drop into a full column -/

/-- The outcome of `drop` on a column without an empty in-board cell. -/
theorem drop_of_full (b : Board) (column piece : Char)
    (h : ∀ i, InBoard i (char_to_col column) → b i (char_to_col column) ≠ '0')
    (hc : 0 ≤ char_to_col column ∧ char_to_col column < COLS) :
    drop b column piece = (false, b) := by
  rcases drop_cases b column piece with ⟨i, hi, he, _, _⟩ | ⟨_, hd⟩
  · exact absurd he (h i ⟨by omega, by exact_mod_cast hi, hc.1, hc.2⟩)
  · exact hd

/-- C11. A `DROPC` in PlayerTurn into a column with no empty cell, and a
`CTURN` in CpuTurn whose drawn column has no empty cell, leave the whole state
(board, colours, turn state, every flag) as it was, and the write returns the
number of bytes written. -/
theorem full_column_changes_nothing (s : State) :
    (∀ (L : Char) (rnd : Nat), L ∈ "ABCDEFGH".toList →
      s.game_state.player_turn = 1 →
      (∀ i, InBoard i (char_to_col L) → s.board i (char_to_col L) ≠ '0') →
      fourinarow_write s ("DROPC ".toList ++ [L]) false rnd = (7, s)) ∧
    (∀ rnd : Nat,
      s.game_state.player_turn = 2 →
      (∀ i, InBoard i ((rnd % 8 : Nat) : Int) → s.board i ((rnd % 8 : Nat) : Int) ≠ '0') →
      fourinarow_write s "CTURN".toList false rnd = (5, s)) := by
  constructor
  · intro L rnd hL ht hfull
    rw [write_dropc s rnd L hL]
    have hd := drop_of_full s.board L s.game_state.player_color hfull
      (char_to_col_letter L hL).2
    simp [do_dropc, ht, hd]
  · intro rnd ht hfull
    rw [write_cturn s rnd]
    rw [← char_to_col_draw rnd] at hfull
    have hc : 0 ≤ char_to_col (draw_column rnd) ∧ char_to_col (draw_column rnd) < COLS := by
      rw [char_to_col_draw]
      simp only [COLS]
      omega
    have hd := drop_of_full s.board (draw_column rnd) s.game_state.cpu_color hfull hc
    simp [do_cturn, ht, hd]

/-- Instance of C11: a `DROPC A` on a full column A and a `CTURN` drawing the
full column C return the byte count and the same state. -/
theorem full_column_changes_nothing_witness :
    fourinarow_write player_turn_column_a_full ("DROPC ".toList ++ ['A']) false 0 =
      (7, player_turn_column_a_full) ∧
    fourinarow_write cpu_turn_column_c_full "CTURN".toList false 10 =
      (5, cpu_turn_column_c_full) :=
  ⟨(full_column_changes_nothing player_turn_column_a_full).1 'A' 0 (by decide) (by decide)
      (fun _ _ => by
        show (if char_to_col 'A' = 0 then 'Y' else '0') ≠ '0'
        decide),
    (full_column_changes_nothing cpu_turn_column_c_full).2 10 (by decide)
      (fun _ _ => by
        show (if ((10 % 8 : Nat) : Int) = 2 then 'R' else '0') ≠ '0'
        decide)⟩

/-! ## The reply to `RESET` -/

/-- Read with `reset` pending and no board display pending. -/
theorem read_reset (s : State) (hd : s.display_board = false) (hr : s.reset = true) :
    fourinarow_read s 0 false = (⟨3, "OK\n".toList, 3⟩, { s with reset := false }) := by
  simp [fourinarow_read, send, hd, hr]

/-- What the reads after a `RESET` return, for either colour. -/
theorem read_after_do_reset (s : State) (p : Char) :
    (s.display_board = false →
      (fourinarow_read (do_reset s p) 0 false).1.out = "OK\n".toList) ∧
    (s.display_board = true →
      (fourinarow_read (do_reset s p) 0 false).1.out = board_text (do_reset s p).board ∧
      (fourinarow_read (fourinarow_read (do_reset s p) 0 false).2 0 false).1.out =
        "OK\n".toList) := by
  constructor
  · intro hd
    rw [read_reset (do_reset s p) hd rfl]
  · intro hd
    rw [read_display (do_reset s p) hd]
    refine ⟨rfl, ?_⟩
    rw [read_reset { do_reset s p with display_board := false } rfl rfl]

/-- C13 as stated fails: from the freshly loaded module, after `BOARD` and an
accepted `RESET Y`, the next Read returns the board display, not `OK`. -/
theorem reset_reply_behind_board_display :
    (fourinarow_write (run fresh [wr "BOARD" 0]) "RESET Y".toList false 0).2.reset = true ∧
    (fourinarow_write (run fresh [wr "BOARD" 0])
      "RESET Y".toList false 0).2.game_state.player_turn = 1 ∧
    (fourinarow_read (fourinarow_write (run fresh [wr "BOARD" 0])
      "RESET Y".toList false 0).2 0 false).1.out =
      ("  ABCDEFGH\n8 00000000\n7 00000000\n6 00000000\n5 00000000\n" ++
        "4 00000000\n3 00000000\n2 00000000\n1 00000000\n").toList ∧
    (fourinarow_read (fourinarow_write (run fresh [wr "BOARD" 0])
      "RESET Y".toList false 0).2 0 false).1.out ≠ "OK\n".toList := by
  decide!

/-- C13, amended.  After an accepted write of `RESET R` or `RESET Y`, in any
state, the next Read at offset 0 returns `OK` when no board display was
pending before the write; when one was pending, the Read returns the board
display and the Read after it returns `OK`. -/
theorem reset_reply (s : State) (rnd : Nat) :
    ((s.display_board = false →
        (fourinarow_read (fourinarow_write s "RESET R".toList false rnd).2 0 false).1.out =
          "OK\n".toList) ∧
      (s.display_board = true →
        (fourinarow_read (fourinarow_write s "RESET R".toList false rnd).2 0 false).1.out =
          board_text (fourinarow_write s "RESET R".toList false rnd).2.board ∧
        (fourinarow_read (fourinarow_read (fourinarow_write s "RESET R".toList false rnd).2
          0 false).2 0 false).1.out = "OK\n".toList)) ∧
    ((s.display_board = false →
        (fourinarow_read (fourinarow_write s "RESET Y".toList false rnd).2 0 false).1.out =
          "OK\n".toList) ∧
      (s.display_board = true →
        (fourinarow_read (fourinarow_write s "RESET Y".toList false rnd).2 0 false).1.out =
          board_text (fourinarow_write s "RESET Y".toList false rnd).2.board ∧
        (fourinarow_read (fourinarow_read (fourinarow_write s "RESET Y".toList false rnd).2
          0 false).2 0 false).1.out = "OK\n".toList)) := by
  rw [write_reset_R, write_reset_Y]
  exact ⟨read_after_do_reset s 'R', read_after_do_reset s 'Y'⟩

/-- Instance of C13, amended: in the middle of a game whose replies were all
read, `RESET Y` is answered by `OK`. -/
theorem reset_reply_witness :
    (fourinarow_read (fourinarow_write (run fresh trace_cpu_turn)
      "RESET Y".toList false 0).2 0 false).1.out = "OK\n".toList :=
  (reset_reply (run fresh trace_cpu_turn) 0).2.1 (by decide!)

/-! ## Filling one column -/

theorem setCell_same (b : Board) (i j : Int) (v : Char) : setCell b i j v i j = v := by
  simp [setCell]

theorem setCell_other (b : Board) (i j : Int) (v : Char) (r c : Int)
    (h : ¬ (r = i ∧ c = j)) : setCell b i j v r c = b r c := by
  simp only [setCell, if_neg h]

theorem drop_filledTo (b : Board) (column piece : Char) (k : Nat)
    (h : FilledTo b (char_to_col column) k) (hk : k < ROWS) (hp : piece ≠ '0') :
    drop b column piece = (true, setCell b k (char_to_col column) piece) ∧
      FilledTo (setCell b k (char_to_col column) piece) (char_to_col column) (k + 1) := by
  obtain ⟨hlow, hup⟩ := h
  rcases drop_cases b column piece with ⟨i, hi, he, hbelow, hd⟩ | ⟨hfull, _⟩
  · have hik : i = k := by
      rcases Nat.lt_trichotomy i k with h1 | h1 | h1
      · exact absurd he (hlow i h1)
      · exact h1
      · exact absurd (hup k (le_refl k) hk) (hbelow k h1)
    subst hik
    refine ⟨hd, fun j hj => ?_, fun j hj hj8 => ?_⟩
    · by_cases hji : j = i
      · subst hji
        rw [setCell_same]
        exact hp
      · rw [setCell_other _ _ _ _ _ _ (by omega)]
        exact hlow j (by omega)
    · rw [setCell_other _ _ _ _ _ _ (by omega)]
      exact hup j (by omega) hj8
  · exact absurd (hup k (le_refl k) hk) (hfull k hk)

theorem drop_filledTo_top (b : Board) (column piece : Char)
    (h : FilledTo b (char_to_col column) ROWS) : drop b column piece = (false, b) := by
  rcases drop_cases b column piece with ⟨i, hi, he, _, _⟩ | ⟨_, hd⟩
  · exact absurd he (h.1 i hi)
  · exact hd

theorem drop_all_append (b : Board) (column : Char) (xs ys : List Char) :
    drop_all b column (xs ++ ys) =
      ((drop_all b column xs).1 ++ (drop_all (drop_all b column xs).2 column ys).1,
        (drop_all (drop_all b column xs).2 column ys).2) := by
  induction xs generalizing b with
  | nil => rfl
  | cons x xs ih =>
    rw [List.cons_append, drop_all, ih]
    rfl

theorem drop_all_filledTo (column : Char) (ps : List Char) (hps : ∀ p ∈ ps, p ≠ '0') :
    ∀ (b : Board) (k : Nat), FilledTo b (char_to_col column) k → k + ps.length ≤ ROWS →
      (drop_all b column ps).1 = List.replicate ps.length true ∧
        FilledTo (drop_all b column ps).2 (char_to_col column) (k + ps.length) := by
  induction ps with
  | nil => intro b k h _; exact ⟨rfl, h⟩
  | cons p ps ih =>
    intro b k h hk
    simp only [List.length_cons] at hk
    obtain ⟨hd, hf⟩ := drop_filledTo b column p k h (by omega) (hps p (List.mem_cons_self _ _))
    obtain ⟨h1, h2⟩ := ih (fun q hq => hps q (List.mem_cons_of_mem _ hq)) _ (k + 1) hf
      (by omega)
    have e : k + (ps.length + 1) = k + 1 + ps.length := by omega
    have e1 : drop_all b column (p :: ps) =
        (true :: (drop_all (setCell b k (char_to_col column) p) column ps).1,
          (drop_all (setCell b k (char_to_col column) p) column ps).2) := by
      rw [drop_all, hd]
    rw [e1, List.length_cons, e]
    exact ⟨by rw [h1]; rfl, h2⟩

/-- C14. For a column letter `A..H`, a board whose column is entirely empty
and nine pieces each `R` or `Y`: dropping them one after another into the
column returns true for the first eight and false for the ninth, and the board
after the ninth drop is the board after the eighth. -/
theorem nine_drops_into_one_column (b : Board) (column : Char) (pieces : List Char)
    (hcol : column ∈ "ABCDEFGH".toList)
    (hempty : ∀ i, InBoard i (char_to_col column) → b i (char_to_col column) = '0')
    (hlen : pieces.length = 9)
    (hpieces : ∀ p ∈ pieces, p = 'R' ∨ p = 'Y') :
    (drop_all b column pieces).1 =
      [true, true, true, true, true, true, true, true, false] ∧
    (drop_all b column pieces).2 = (drop_all b column (pieces.take 8)).2 := by
  have hc := (char_to_col_letter column hcol).2
  have h0 : FilledTo b (char_to_col column) 0 :=
    ⟨fun i hi => absurd hi (Nat.not_lt_zero i),
      fun i _ hi => hempty i ⟨by omega, by exact_mod_cast hi, hc.1, hc.2⟩⟩
  have hne : ∀ p ∈ pieces.take 8, p ≠ '0' := by
    intro p hp
    rcases hpieces p (List.mem_of_mem_take hp) with rfl | rfl <;> decide
  have hl8 : (pieces.take 8).length = 8 := by
    rw [List.length_take, hlen]
    rfl
  obtain ⟨h1, h2⟩ := drop_all_filledTo column (pieces.take 8) hne b 0 h0
    (by rw [hl8]; simp [ROWS])
  rw [hl8] at h1 h2
  have hsplit : pieces = pieces.take 8 ++ pieces.drop 8 := (List.take_append_drop 8 pieces).symm
  have hd9 : ∃ p, pieces.drop 8 = [p] := by
    have : (pieces.drop 8).length = 1 := by rw [List.length_drop, hlen]
    match hq : pieces.drop 8, this with
    | [p], _ => exact ⟨p, rfl⟩
  obtain ⟨p, hp⟩ := hd9
  have hfull := drop_filledTo_top (drop_all b column (pieces.take 8)).2 column p
    (by simpa [ROWS] using h2)
  have key : drop_all b column pieces =
      ((drop_all b column (pieces.take 8)).1 ++
          (drop_all (drop_all b column (pieces.take 8)).2 column [p]).1,
        (drop_all (drop_all b column (pieces.take 8)).2 column [p]).2) := by
    conv_lhs => rw [hsplit, hp]
    exact drop_all_append b column (pieces.take 8) [p]
  have e9 : drop_all (drop_all b column (pieces.take 8)).2 column [p] =
      ([false], (drop_all b column (pieces.take 8)).2) := by
    rw [drop_all, drop_all, hfull]
  rw [key, e9, h1]
  exact ⟨rfl, rfl⟩

/-- Instance of C14 on the freshly initialised board and column D. -/
theorem nine_drops_into_one_column_witness :
    (drop_all fresh.board 'D' "RYRYRRYYR".toList).1 =
      [true, true, true, true, true, true, true, true, false] ∧
    (drop_all fresh.board 'D' "RYRYRRYYR".toList).2 =
      (drop_all fresh.board 'D' ("RYRYRRYYR".toList.take 8)).2 :=
  nine_drops_into_one_column fresh.board 'D' "RYRYRRYYR".toList (by decide)
    (fun i h => init_board_cell _ i _ ⟨h.1, h.2.1, by decide, by decide⟩) (by decide)
    (by decide)

/-! ## The board display -/

theorem c_str_of_no_nul (l : List Char) (h : ∀ c ∈ l, c ≠ NUL) : c_str l = l := by
  induction l with
  | nil => rfl
  | cons a l ih =>
    have ha : (a != NUL) = true := by simpa using h a (List.mem_cons_self _ _)
    rw [c_str, List.takeWhile_cons_of_pos (p := fun c => c != NUL) ha]
    congr 1
    exact ih fun c hc => h c (List.mem_cons_of_mem _ hc)

theorem row_text_of_no_nul (b : Board) (i : Nat) (hi : i < ROWS)
    (h : ∀ i j, InBoard i j → b i j ≠ NUL) :
    row_text b i = [b i 0, b i 1, b i 2, b i 3, b i 4, b i 5, b i 6, b i 7] := by
  have e : (List.range COLS).map (fun j : Nat => b i j) =
      [b i 0, b i 1, b i 2, b i 3, b i 4, b i 5, b i 6, b i 7] := rfl
  rw [row_text, e]
  apply c_str_of_no_nul
  intro c hc
  simp only [List.mem_cons, List.mem_singleton, List.not_mem_nil, or_false] at hc
  have hi' : (0 : Int) ≤ i ∧ (i : Int) < ROWS := ⟨by omega, by exact_mod_cast hi⟩
  rcases hc with rfl | rfl | rfl | rfl | rfl | rfl | rfl | rfl <;>
    exact h _ _ ⟨hi'.1, hi'.2, by decide, by decide⟩

theorem board_text_of_no_nul (b : Board) (h : ∀ i j, InBoard i j → b i j ≠ NUL) :
    board_text b = (display_lines b).flatten := by
  have e : (List.range ROWS).reverse = [7, 6, 5, 4, 3, 2, 1, 0] := by decide
  rw [board_text, e]
  simp only [List.map_cons, List.map_nil]
  rw [row_text_of_no_nul b 7 (by decide) h, row_text_of_no_nul b 6 (by decide) h,
    row_text_of_no_nul b 5 (by decide) h, row_text_of_no_nul b 4 (by decide) h,
    row_text_of_no_nul b 3 (by decide) h, row_text_of_no_nul b 2 (by decide) h,
    row_text_of_no_nul b 1 (by decide) h, row_text_of_no_nul b 0 (by decide) h]
  rfl

/-- C15. For a board none of whose 64 cells is the NUL byte, with the board
display pending, a Read at offset 0 returns exactly the nine lines of
`display_lines` (99 bytes): the header `  ABCDEFGH`, then for `k = 8` down to
`1` the digit `k`, one blank and the eight cells of row `k` in column order,
each line ended by a newline; board and session are left unchanged. -/
theorem read_renders_board (s : State) (hd : s.display_board = true)
    (hcells : ∀ i j, InBoard i j → s.board i j ≠ NUL) :
    (fourinarow_read s 0 false).1.out = (display_lines s.board).flatten ∧
    (display_lines s.board).length = 9 ∧
    (∀ l ∈ display_lines s.board, l.length = 11 ∧ l.getLast? = some '\n') ∧
    (fourinarow_read s 0 false).1.out.length = 99 ∧
    (fourinarow_read s 0 false).1.ret = 99 ∧
    (fourinarow_read s 0 false).2.board = s.board ∧
    (fourinarow_read s 0 false).2.game_state = s.game_state := by
  rw [read_display s hd, board_text_of_no_nul s.board hcells]
  refine ⟨rfl, rfl, ?_, rfl, rfl, rfl, rfl⟩
  intro l hl
  simp only [display_lines, List.map_cons, List.map_nil, List.mem_cons, List.mem_singleton,
    List.not_mem_nil, or_false] at hl
  rcases hl with rfl | rfl | rfl | rfl | rfl | rfl | rfl | rfl | rfl <;> exact ⟨rfl, rfl⟩

/-- Instance of C15: the display of the freshly initialised board. -/
theorem read_renders_board_witness :
    (fourinarow_read (run fresh [wr "BOARD" 0]) 0 false).1.out =
      (display_lines (run fresh [wr "BOARD" 0]).board).flatten ∧
    (fourinarow_read (run fresh [wr "BOARD" 0]) 0 false).1.ret = 99 :=
  ⟨(read_renders_board (run fresh [wr "BOARD" 0]) (by decide!)
      (fun i j h => by
        show init_board (fun _ _ => NUL) i j ≠ NUL
        rw [init_board_cell _ i j h]
        decide)).1,
    (read_renders_board (run fresh [wr "BOARD" 0]) (by decide!)
      (fun i j h => by
        show init_board (fun _ _ => NUL) i j ≠ NUL
        rw [init_board_cell _ i j h]
        decide)).2.2.2.2.1⟩

/-! ## Indices into the command buffer -/

/-- C17, evaluated at the two ends of the accepted lengths.  An input of 8
bytes passes the length check (the write of `RESET R` with a newline returns
8 and starts a game), and its terminator is stored at index 8, one past the
last index 7 of `user_cmd`.  An input of 0 bytes passes the check too, and the
newline test reads index `0 - 1`, which as an unsigned value is `2 ^ 64 - 1`.
For the lengths 1 to 7 both indices lie inside the buffer. -/
theorem buffer_indices_at_accepted_lengths :
    length_accepted 8 = true ∧
    (fourinarow_write fresh "RESET R\n".toList false 0).1 = 8 ∧
    (fourinarow_write fresh "RESET R\n".toList false 0).2.game_state.player_turn = 1 ∧
    terminator_index 8 = 8 ∧ ¬ in_user_cmd (terminator_index 8) ∧
    length_accepted 0 = true ∧
    (fourinarow_write fresh [] false 0).1 = 0 ∧
    newline_index 0 = 2 ^ 64 - 1 ∧ ¬ in_user_cmd (newline_index 0) ∧
    (∀ len, 1 ≤ len → len ≤ 7 →
      length_accepted len = true ∧ in_user_cmd (terminator_index len) ∧
        newline_index len = len - 1 ∧ in_user_cmd (newline_index len)) := by
  refine ⟨by decide, by decide!, by decide!, rfl, by decide, by decide, by decide!,
    by decide, by decide, ?_⟩
  intro len h1 h7
  have hn : newline_index len = len - 1 := by
    unfold newline_index
    omega
  refine ⟨by simp [length_accepted, MAX_CMD_LEN]; omega, ?_, hn, ?_⟩
  · simp only [in_user_cmd, terminator_index, MAX_CMD_LEN]
    omega
  · rw [hn]
    simp only [in_user_cmd, MAX_CMD_LEN]
    omega

/-! ## The effect of one call on board and session -/

/-- A read changes neither the board nor the session. -/
theorem read_board_session (s : State) (off : Int) (f : Bool) :
    (fourinarow_read s off f).2.board = s.board ∧
      (fourinarow_read s off f).2.game_state = s.game_state := by
  unfold fourinarow_read
  split_ifs <;> simp only [send_state] <;> (try split_ifs) <;>
    first | exact ⟨rfl, rfl⟩ | exact ⟨trivial, rfl⟩ | exact ⟨rfl, trivial⟩ | trivial

theorem do_dropc_cases (s : State) (L : Char) :
    ((do_dropc s L).board = s.board ∧ (do_dropc s L).game_state = s.game_state) ∨
    (s.game_state.player_turn = 1 ∧
      ∃ b, drop s.board L s.game_state.player_color = (true, b) ∧
        (do_dropc s L).board = b ∧
        (do_dropc s L).game_state =
          session_after_move s.game_state b s.game_state.player_color 2) := by
  by_cases ht : s.game_state.player_turn = 1
  · cases hd : drop s.board L s.game_state.player_color with
    | mk r b =>
      cases r with
      | false =>
        left
        simp [do_dropc, ht, hd]
      | true =>
        right
        refine ⟨ht, b, rfl, ?_⟩
        rw [do_dropc_of_drop s L b ht hd, session_after_move]
        split_ifs <;> exact ⟨rfl, rfl⟩
  · left
    unfold do_dropc
    split_ifs <;> exact ⟨rfl, rfl⟩

theorem do_cturn_cases (s : State) (rnd : Nat) :
    ((do_cturn s rnd).board = s.board ∧ (do_cturn s rnd).game_state = s.game_state) ∨
    (s.game_state.player_turn = 2 ∧
      ∃ b, drop s.board (draw_column rnd) s.game_state.cpu_color = (true, b) ∧
        (do_cturn s rnd).board = b ∧
        (do_cturn s rnd).game_state =
          session_after_move s.game_state b s.game_state.cpu_color 1) := by
  by_cases ht : s.game_state.player_turn = 2
  · cases hd : drop s.board (draw_column rnd) s.game_state.cpu_color with
    | mk r b =>
      cases r with
      | false =>
        left
        simp [do_cturn, ht, hd]
      | true =>
        right
        refine ⟨ht, b, rfl, ?_⟩
        rw [do_cturn_of_drop s rnd b ht hd, session_after_move]
        split_ifs <;> exact ⟨rfl, rfl⟩
  · left
    unfold do_cturn
    split_ifs <;> exact ⟨rfl, rfl⟩

/-- What the dispatcher does to a state: nothing to board and session, or the
`RESET` branch with an accepted colour, or the `DROPC` branch with an accepted
column, or the `CTURN` branch. -/
theorem dispatch_cases (s : State) (cmd : List Char) (rnd : Nat) :
    ((dispatch s cmd rnd).board = s.board ∧ (dispatch s cmd rnd).game_state = s.game_state) ∨
    (∃ p, (p = 'R' ∨ p = 'Y') ∧ dispatch s cmd rnd = do_reset s p) ∨
    (∃ L, L ∈ "ABCDEFGH".toList ∧ dispatch s cmd rnd = do_dropc s L) ∨
    dispatch s cmd rnd = do_cturn s rnd := by
  unfold dispatch
  split_ifs
  · exact Or.inl ⟨rfl, rfl⟩
  · split
    · split_ifs with hp
      · exact Or.inr (Or.inl ⟨_, hp, rfl⟩)
      · exact Or.inl ⟨rfl, rfl⟩
    · exact Or.inl ⟨rfl, rfl⟩
  · split
    · split_ifs with hc
      · exact Or.inr (Or.inr (Or.inl ⟨_, (is_column_iff _).1 hc, rfl⟩))
      · exact Or.inl ⟨rfl, rfl⟩
    · exact Or.inl ⟨rfl, rfl⟩
  · exact Or.inr (Or.inr (Or.inr rfl))
  · exact Or.inl ⟨rfl, rfl⟩

/-- The four ways in which one call can act on board and session: leave both
alone; start a game on an initialised board; place the player's piece in
PlayerTurn; place the computer's piece in CpuTurn. -/
theorem step_cases (s : State) (op : Op) :
    ((step s op).board = s.board ∧ (step s op).game_state = s.game_state) ∨
    (∃ p, (p = 'R' ∨ p = 'Y') ∧ (step s op).board = init_board s.board ∧
      (step s op).game_state =
        { player_color := p, cpu_color := if p = 'R' then 'Y' else 'R', player_turn := 1 }) ∨
    (s.game_state.player_turn = 1 ∧
      ∃ L b, L ∈ "ABCDEFGH".toList ∧ drop s.board L s.game_state.player_color = (true, b) ∧
        (step s op).board = b ∧
        (step s op).game_state =
          session_after_move s.game_state b s.game_state.player_color 2) ∨
    (s.game_state.player_turn = 2 ∧
      ∃ rnd b, drop s.board (draw_column rnd) s.game_state.cpu_color = (true, b) ∧
        (step s op).board = b ∧
        (step s op).game_state =
          session_after_move s.game_state b s.game_state.cpu_color 1) := by
  cases op with
  | read off f => exact Or.inl (read_board_session s off f)
  | write buf f rnd =>
    simp only [step, fourinarow_write]
    split_ifs
    · exact Or.inl ⟨rfl, rfl⟩
    · exact Or.inl ⟨rfl, rfl⟩
    · show (_ ∧ _) ∨ _
      rcases dispatch_cases s (command_text buf) rnd with h | ⟨p, hp, h⟩ | ⟨L, hL, h⟩ | h
      · exact Or.inl h
      · exact Or.inr (Or.inl ⟨p, hp, by rw [h]; rfl, by rw [h]; rfl⟩)
      · rcases do_dropc_cases s L with h2 | ⟨ht, b, hd, hb, hg⟩
        · exact Or.inl (by rw [h]; exact h2)
        · exact Or.inr (Or.inr (Or.inl ⟨ht, L, b, hL, hd, by rw [h]; exact hb,
            by rw [h]; exact hg⟩))
      · rcases do_cturn_cases s rnd with h2 | ⟨ht, b, hd, hb, hg⟩
        · exact Or.inl (by rw [h]; exact h2)
        · exact Or.inr (Or.inr (Or.inr ⟨ht, rnd, b, hd, by rw [h]; exact hb,
            by rw [h]; exact hg⟩))

/-! ## Gravity -/

theorem gravity_init_board (b : Board) : Gravity (init_board b) := by
  intro r c hin hne
  exact absurd (init_board_cell b r c hin) hne

/-- A successful `drop` keeps the columns free of gaps, whatever the column
and the piece. -/
theorem gravity_drop (b : Board) (column piece : Char) (h : Gravity b) :
    Gravity (drop b column piece).2 := by
  rcases drop_cases b column piece with ⟨i, hi, he, hbelow, hd⟩ | ⟨_, hd⟩
  · rw [hd]
    show Gravity (setCell b i (char_to_col column) piece)
    intro r c hin hne r2 h0 hlt
    by_cases hc : c = char_to_col column
    · subst hc
      by_cases hr : r = i
      · subst hr
        rw [setCell_other _ _ _ _ _ _ (by omega)]
        have := hbelow r2.toNat (by omega)
        rwa [Int.toNat_of_nonneg h0] at this
      · rw [setCell_other _ _ _ _ _ _ (by omega)] at hne
        have hri : r < i := by
          by_contra hge
          exact h r _ hin hne i (by omega) (by omega) he
        rw [setCell_other _ _ _ _ _ _ (by omega)]
        exact h r _ hin hne r2 h0 hlt
    · rw [setCell_other _ _ _ _ _ _ (fun hh => hc hh.2)] at hne ⊢
      exact h r c hin hne r2 h0 hlt
  · rw [hd]
    exact h

/-- C16. Gravity invariant: in every state reachable from the freshly loaded
module by writes and reads, for any random draws, whenever the cell at row `r`
of a column is not empty, no cell of that column below row `r` is empty. -/
theorem gravity_invariant (s : State) (hs : Reachable s) :
    ∀ r c, InBoard r c → s.board r c ≠ '0' → ∀ r2, 0 ≤ r2 → r2 < r → s.board r2 c ≠ '0' := by
  refine reachable_induction (fun s => Gravity s.board) (gravity_init_board _) ?_ s hs
  intro s op ih
  rcases step_cases s op with ⟨hb, _⟩ | ⟨p, _, hb, _⟩ | ⟨_, L, b, _, hd, hb, _⟩ |
    ⟨_, rnd, b, hd, hb, _⟩
  · show Gravity (step s op).board
    rw [hb]
    exact ih
  · show Gravity (step s op).board
    rw [hb]
    exact gravity_init_board _
  · show Gravity (step s op).board
    rw [hb]
    have := gravity_drop s.board L s.game_state.player_color ih
    rwa [hd] at this
  · show Gravity (step s op).board
    rw [hb]
    have := gravity_drop s.board (draw_column rnd) s.game_state.cpu_color ih
    rwa [hd] at this

/-- Instance of C16 on the game of `trace_before_player_win`: column A holds
a piece in row 3 (index 2), so row 1 (index 0) is not empty. -/
theorem gravity_invariant_witness :
    (run fresh trace_before_player_win).board 0 0 ≠ '0' :=
  gravity_invariant (run fresh trace_before_player_win) ⟨trace_before_player_win, rfl⟩
    2 0 (by decide) (by decide!) 0 (by decide) (by decide)

/-! ## Counting pieces -/

theorem mem_all_cells (c : Int × Int) : c ∈ all_cells ↔ InBoard c.1 c.2 := by
  obtain ⟨i, j⟩ := c
  simp only [all_cells, List.mem_flatMap, List.mem_map, List.mem_range, Prod.mk.injEq, InBoard,
    ROWS, COLS]
  constructor
  · rintro ⟨a, ha, b, hb, rfl, rfl⟩
    omega
  · rintro ⟨h1, h2, h3, h4⟩
    exact ⟨i.toNat, by omega, j.toNat, by omega, by omega, by omega⟩

theorem nodup_all_cells : all_cells.Nodup := by decide!

theorem length_all_cells : all_cells.length = 64 := by decide!

/-- Changing a predicate at one element of a list without repetition changes
the count at most by that element. -/
theorem countP_update {α : Type} (l : List α) (hl : l.Nodup) (a : α) (ha : a ∈ l)
    (f g : α → Bool) (h : ∀ x, x ≠ a → f x = g x) :
    l.countP g + (if f a then 1 else 0) = l.countP f + (if g a then 1 else 0) := by
  induction l with
  | nil => exact absurd ha (List.not_mem_nil a)
  | cons x l ih =>
    rw [List.nodup_cons] at hl
    rw [List.countP_cons, List.countP_cons]
    by_cases hxa : x = a
    · subst hxa
      have hrest : l.countP g = l.countP f := by
        apply List.countP_congr
        intro y hy
        have hyx : y ≠ x := fun e => hl.1 (e ▸ hy)
        rw [h y hyx]
      rw [hrest]
      omega
    · have ha' : a ∈ l := by
        rcases List.mem_cons.1 ha with e | e
        · exact absurd e.symm hxa
        · exact e
      have := ih hl.2 ha'
      rw [h x hxa]
      omega

/-- Counts after a piece is stored in a cell of the playing area. -/
theorem count_setCell (b : Board) (i j : Int) (hin : InBoard i j) (p q : Char) :
    count_cells (setCell b i j p) q + (if b i j = q then 1 else 0) =
      count_cells b q + (if p = q then 1 else 0) := by
  have h := countP_update all_cells nodup_all_cells (i, j) ((mem_all_cells (i, j)).2 hin)
    (fun c => b c.1 c.2 == q) (fun c => setCell b i j p c.1 c.2 == q)
    (fun x hx => by
      have : ¬ (x.1 = i ∧ x.2 = j) := fun e => hx (Prod.ext e.1 e.2)
      simp only [setCell_other b i j p x.1 x.2 this])
  simp only [setCell_same, beq_iff_eq] at h
  exact h

/-- Placing a piece `p` other than `'0'` on an empty cell: one empty cell
less, one `p` more, every other count unchanged. -/
theorem count_after_placing (b : Board) (i j : Int) (hin : InBoard i j) (he : b i j = '0')
    (p : Char) (hp : p ≠ '0') :
    count_cells (setCell b i j p) '0' + 1 = count_cells b '0' ∧
    count_cells (setCell b i j p) p = count_cells b p + 1 ∧
    ∀ q, q ≠ '0' → q ≠ p → count_cells (setCell b i j p) q = count_cells b q := by
  refine ⟨?_, ?_, fun q hq0 hqp => ?_⟩
  · have := count_setCell b i j hin p '0'
    rw [if_pos he, if_neg hp] at this
    exact this
  · have := count_setCell b i j hin p p
    rw [if_neg (by rw [he]; exact Ne.symm hp), if_pos rfl] at this
    exact this
  · have := count_setCell b i j hin p q
    rw [if_neg (by rw [he]; exact Ne.symm hq0), if_neg (Ne.symm hqp)] at this
    exact this

theorem count_init_board (b : Board) :
    count_cells (init_board b) '0' = 64 ∧
      ∀ q, q ≠ '0' → count_cells (init_board b) q = 0 := by
  constructor
  · rw [count_cells, ← length_all_cells, List.countP_eq_length]
    intro c hc
    simp [init_board_cell b c.1 c.2 ((mem_all_cells c).1 hc)]
  · intro q hq
    rw [count_cells, List.countP_eq_zero]
    intro c hc
    simp [init_board_cell b c.1 c.2 ((mem_all_cells c).1 hc), Ne.symm hq]

theorem exists_empty_of_count_pos (b : Board) (h : 0 < count_cells b '0') :
    ∃ i j, InBoard i j ∧ b i j = '0' := by
  rw [count_cells, List.countP_pos_iff] at h
  obtain ⟨c, hc, he⟩ := h
  exact ⟨c.1, c.2, (mem_all_cells c).1 hc, by simpa using he⟩

/-- A piece of another colour placed on the board gives `q` no new run. -/
theorem check_win_setCell_other (b : Board) (i j : Int) (p q : Char) (hpq : p ≠ q)
    (h : check_win b q = false) : check_win (setCell b i j p) q = false := by
  rw [check_win_eq_false_iff] at h ⊢
  rintro ⟨r, c, d, hrun⟩
  refine h ⟨r, c, d, fun k hk => ?_⟩
  obtain ⟨hin, hcell⟩ := hrun k hk
  refine ⟨hin, ?_⟩
  by_cases hat : r + k * d.dr = i ∧ c + k * d.dc = j
  · rw [setCell, if_pos hat] at hcell
    exact absurd hcell hpq
  · rwa [setCell_other _ _ _ _ _ _ hat] at hcell

/-! ## The invariant of a game -/

theorem gameInv_of_no_game (g : game_state_t) (b : Board) (h : g.player_turn = 0) :
    GameInv g b :=
  ⟨Or.inl h, fun n => absurd h n, fun n => absurd h n,
    fun e => absurd (h.symm.trans e) (by decide),
    fun e => absurd (h.symm.trans e) (by decide), fun n => absurd h n, fun n => absurd h n⟩

theorem gameInv_reset (b : Board) (p : Char) (hp : p = 'R' ∨ p = 'Y') :
    GameInv { player_color := p, cpu_color := if p = 'R' then 'Y' else 'R', player_turn := 1 }
      (init_board b) := by
  obtain ⟨h0, hq⟩ := count_init_board b
  have hR : count_cells (init_board b) 'R' = 0 := hq 'R' (by decide)
  have hY : count_cells (init_board b) 'Y' = 0 := hq 'Y' (by decide)
  have hnowin : ∀ q, q ≠ '0' → check_win (init_board b) q = false := by
    intro q hq0
    rw [check_win_eq_false_iff]
    rintro ⟨r, c, d, hrun⟩
    obtain ⟨hin, hcell⟩ := hrun 0 (by simp)
    rw [init_board_cell b _ _ hin] at hcell
    exact hq0 hcell.symm
  have hnotfull : check_tie (init_board b) = false := by
    rw [check_tie_eq_false_iff]
    exact ⟨0, 0, by decide, init_board_cell b 0 0 (by decide)⟩
  rcases hp with rfl | rfl
  · refine ⟨Or.inr (Or.inl rfl), fun _ => Or.inl ⟨rfl, rfl⟩, fun _ => ?_, fun _ => ?_,
      fun e => absurd e (by decide),
      fun _ => ⟨hnowin 'R' (by decide), hnowin 'Y' (by decide)⟩, fun _ => hnotfull⟩
    · show _ + count_cells _ 'R' + count_cells _ 'Y' = 64
      omega
    · show count_cells _ 'R' = count_cells _ 'Y'
      omega
  · refine ⟨Or.inr (Or.inl rfl), fun _ => Or.inr ⟨rfl, rfl⟩, fun _ => ?_, fun _ => ?_,
      fun e => absurd e (by decide),
      fun _ => ⟨hnowin 'Y' (by decide), hnowin 'R' (by decide)⟩, fun _ => hnotfull⟩
    · show _ + count_cells _ 'Y' + count_cells _ 'R' = 64
      omega
    · show count_cells _ 'Y' = count_cells _ 'R'
      omega

/-- A successful `drop` into a column of the playing area stores the piece in
an empty cell of the playing area. -/
theorem drop_success (b b2 : Board) (column piece : Char)
    (hc : 0 ≤ char_to_col column ∧ char_to_col column < COLS)
    (hd : drop b column piece = (true, b2)) :
    ∃ i, InBoard i (char_to_col column) ∧ b i (char_to_col column) = '0' ∧
      b2 = setCell b i (char_to_col column) piece := by
  rcases drop_cases b column piece with ⟨i, hi, he, _, hd2⟩ | ⟨_, hd2⟩
  · rw [hd] at hd2
    exact ⟨i, ⟨by omega, by exact_mod_cast hi, hc.1, hc.2⟩, he, (Prod.mk.inj hd2).2⟩
  · rw [hd] at hd2
    exact absurd (Prod.mk.inj hd2).1 (by decide)

theorem draw_column_in_range (rnd : Nat) :
    0 ≤ char_to_col (draw_column rnd) ∧ char_to_col (draw_column rnd) < COLS := by
  rw [char_to_col_draw]
  simp only [COLS]
  omega

/-- The player's move keeps the invariant. -/
theorem gameInv_player_move (g : game_state_t) (b b2 : Board) (L : Char)
    (hL : L ∈ "ABCDEFGH".toList) (h : GameInv g b) (ht : g.player_turn = 1)
    (hd : drop b L g.player_color = (true, b2)) :
    GameInv (session_after_move g b2 g.player_color 2) b2 := by
  by_cases hend : (if check_win b2 g.player_color then (0 : Int)
      else if check_tie b2 then 0 else 2) = 0
  · exact gameInv_of_no_game _ _ hend
  · have hw : check_win b2 g.player_color = false := by
      cases hc : check_win b2 g.player_color
      · rfl
      · rw [hc] at hend; exact absurd rfl hend
    have hf : check_tie b2 = false := by
      cases hc : check_tie b2
      · rfl
      · rw [hw, hc] at hend; exact absurd rfl hend
    have ht2 : (session_after_move g b2 g.player_color 2).player_turn = 2 := by
      simp [session_after_move, hw, hf]
    have hn0 : g.player_turn ≠ 0 := by rw [ht]; decide
    obtain ⟨i, hin, he, rfl⟩ := drop_success b b2 L g.player_color
      (char_to_col_letter L hL).2 hd
    have hcol := h.colours hn0
    have hp0 : g.player_color ≠ '0' := by rcases hcol with ⟨e, _⟩ | ⟨e, _⟩ <;> rw [e] <;> decide
    have hc0 : g.cpu_color ≠ '0' := by rcases hcol with ⟨_, e⟩ | ⟨_, e⟩ <;> rw [e] <;> decide
    have hpc : g.player_color ≠ g.cpu_color := by
      rcases hcol with ⟨e1, e2⟩ | ⟨e1, e2⟩ <;> rw [e1, e2] <;> decide
    obtain ⟨c1, c2, c3⟩ := count_after_placing b i _ hin he g.player_color hp0
    have c4 := c3 g.cpu_color hc0 (Ne.symm hpc)
    have htot := h.total hn0
    have heq := h.player_turn ht
    refine ⟨Or.inr (Or.inr ht2), fun _ => hcol, fun _ => ?_,
      fun e => absurd (ht2.symm.trans e) (by decide), fun _ => ?_,
      fun _ => ⟨hw, check_win_setCell_other b i _ _ _ hpc (h.no_win hn0).2⟩,
      fun _ => hf⟩
    · show count_cells _ '0' + count_cells _ g.player_color + count_cells _ g.cpu_color = 64
      omega
    · show count_cells _ g.player_color = count_cells _ g.cpu_color + 1
      omega

/-- The computer's move keeps the invariant. -/
theorem gameInv_cpu_move (g : game_state_t) (b b2 : Board) (rnd : Nat)
    (h : GameInv g b) (ht : g.player_turn = 2)
    (hd : drop b (draw_column rnd) g.cpu_color = (true, b2)) :
    GameInv (session_after_move g b2 g.cpu_color 1) b2 := by
  by_cases hend : (if check_win b2 g.cpu_color then (0 : Int)
      else if check_tie b2 then 0 else 1) = 0
  · exact gameInv_of_no_game _ _ hend
  · have hw : check_win b2 g.cpu_color = false := by
      cases hc : check_win b2 g.cpu_color
      · rfl
      · rw [hc] at hend; exact absurd rfl hend
    have hf : check_tie b2 = false := by
      cases hc : check_tie b2
      · rfl
      · rw [hw, hc] at hend; exact absurd rfl hend
    have ht2 : (session_after_move g b2 g.cpu_color 1).player_turn = 1 := by
      simp [session_after_move, hw, hf]
    have hn0 : g.player_turn ≠ 0 := by rw [ht]; decide
    obtain ⟨i, hin, he, rfl⟩ := drop_success b b2 (draw_column rnd) g.cpu_color
      (draw_column_in_range rnd) hd
    have hcol := h.colours hn0
    have hp0 : g.player_color ≠ '0' := by rcases hcol with ⟨e, _⟩ | ⟨e, _⟩ <;> rw [e] <;> decide
    have hc0 : g.cpu_color ≠ '0' := by rcases hcol with ⟨_, e⟩ | ⟨_, e⟩ <;> rw [e] <;> decide
    have hpc : g.player_color ≠ g.cpu_color := by
      rcases hcol with ⟨e1, e2⟩ | ⟨e1, e2⟩ <;> rw [e1, e2] <;> decide
    obtain ⟨c1, c2, c3⟩ := count_after_placing b i _ hin he g.cpu_color hc0
    have c4 := c3 g.player_color hp0 hpc
    have htot := h.total hn0
    have heq := h.cpu_turn ht
    refine ⟨Or.inr (Or.inl ht2), fun _ => hcol, fun _ => ?_, fun _ => ?_,
      fun e => absurd (ht2.symm.trans e) (by decide),
      fun _ => ⟨check_win_setCell_other b i _ _ _ (Ne.symm hpc) (h.no_win hn0).1, hw⟩,
      fun _ => hf⟩
    · show count_cells _ '0' + count_cells _ g.player_color + count_cells _ g.cpu_color = 64
      omega
    · show count_cells _ g.player_color = count_cells _ g.cpu_color
      omega

/-- The invariant holds in every reachable state. -/
theorem gameInv_reachable (s : State) (hs : Reachable s) : GameInv s.game_state s.board := by
  refine reachable_induction (fun s => GameInv s.game_state s.board)
    (gameInv_of_no_game _ _ rfl) ?_ s hs
  intro s op ih
  rcases step_cases s op with ⟨hb, hg⟩ | ⟨p, hp, hb, hg⟩ | ⟨ht, L, b, hL, hd, hb, hg⟩ |
    ⟨ht, rnd, b, hd, hb, hg⟩
  · show GameInv (step s op).game_state (step s op).board
    rw [hb, hg]
    exact ih
  · show GameInv (step s op).game_state (step s op).board
    rw [hb, hg]
    exact gameInv_reset s.board p hp
  · show GameInv (step s op).game_state (step s op).board
    rw [hb, hg]
    exact gameInv_player_move s.game_state s.board b L hL ih ht hd
  · show GameInv (step s op).game_state (step s op).board
    rw [hb, hg]
    exact gameInv_cpu_move s.game_state s.board b rnd ih ht hd

/-! ## Invariants of reachable states -/

/-- C18. In every reachable state whose turn state is PlayerTurn or CpuTurn,
`check_win` is false for `player_color` and for `cpu_color` and `check_tie` is
false.  Hence a call that places a piece always starts from a state without
four in a row and with an empty cell: one call either leaves the board alone,
or initialises it (an accepted `RESET`), or places a piece on such a board. -/
theorem game_on_means_no_win_and_not_full (s : State) (hs : Reachable s) :
    ((s.game_state.player_turn = 1 ∨ s.game_state.player_turn = 2) →
      check_win s.board s.game_state.player_color = false ∧
      check_win s.board s.game_state.cpu_color = false ∧
      check_tie s.board = false) ∧
    (∀ op, (step s op).board = s.board ∨ (step s op).board = init_board s.board ∨
      ((s.game_state.player_turn = 1 ∨ s.game_state.player_turn = 2) ∧
        (¬ ∃ r c d, RunOfFour s.board s.game_state.player_color r c d) ∧
        (¬ ∃ r c d, RunOfFour s.board s.game_state.cpu_color r c d) ∧
        ∃ i j, InBoard i j ∧ s.board i j = '0')) := by
  have h := gameInv_reachable s hs
  have key : (s.game_state.player_turn = 1 ∨ s.game_state.player_turn = 2) →
      check_win s.board s.game_state.player_color = false ∧
      check_win s.board s.game_state.cpu_color = false ∧
      check_tie s.board = false := by
    intro ht
    have hn0 : s.game_state.player_turn ≠ 0 := by
      rcases ht with e | e <;> rw [e] <;> decide
    exact ⟨(h.no_win hn0).1, (h.no_win hn0).2, h.not_full hn0⟩
  refine ⟨key, fun op => ?_⟩
  rcases step_cases s op with ⟨hb, _⟩ | ⟨_, _, hb, _⟩ | ⟨ht, _⟩ | ⟨ht, _⟩
  · exact Or.inl hb
  · exact Or.inr (Or.inl hb)
  · obtain ⟨k1, k2, k3⟩ := key (Or.inl ht)
    exact Or.inr (Or.inr ⟨Or.inl ht, (check_win_eq_false_iff _ _).1 k1,
      (check_win_eq_false_iff _ _).1 k2, (check_tie_eq_false_iff _).1 k3⟩)
  · obtain ⟨k1, k2, k3⟩ := key (Or.inr ht)
    exact Or.inr (Or.inr ⟨Or.inr ht, (check_win_eq_false_iff _ _).1 k1,
      (check_win_eq_false_iff _ _).1 k2, (check_tie_eq_false_iff _).1 k3⟩)

/-- Instance of C18 on the game of `trace_before_cpu_win`, which is in CpuTurn. -/
theorem game_on_means_no_win_and_not_full_witness :
    check_win (run fresh trace_before_cpu_win).board
      (run fresh trace_before_cpu_win).game_state.player_color = false ∧
    check_win (run fresh trace_before_cpu_win).board
      (run fresh trace_before_cpu_win).game_state.cpu_color = false ∧
    check_tie (run fresh trace_before_cpu_win).board = false :=
  (game_on_means_no_win_and_not_full (run fresh trace_before_cpu_win)
    ⟨trace_before_cpu_win, rfl⟩).1 (Or.inr (by decide!))

/-- C19. In every reachable state: in PlayerTurn the number of cells holding
`player_color` equals the number holding `cpu_color`; in CpuTurn it is exactly
one more. -/
theorem piece_counts_follow_turn (s : State) (hs : Reachable s) :
    (s.game_state.player_turn = 1 →
      count_cells s.board s.game_state.player_color =
        count_cells s.board s.game_state.cpu_color) ∧
    (s.game_state.player_turn = 2 →
      count_cells s.board s.game_state.player_color =
        count_cells s.board s.game_state.cpu_color + 1) :=
  ⟨(gameInv_reachable s hs).player_turn, (gameInv_reachable s hs).cpu_turn⟩

/-- Instance of C19 on the games of `trace_before_player_win` (PlayerTurn)
and `trace_before_cpu_win` (CpuTurn). -/
theorem piece_counts_follow_turn_witness :
    (count_cells (run fresh trace_before_player_win).board
        (run fresh trace_before_player_win).game_state.player_color =
      count_cells (run fresh trace_before_player_win).board
        (run fresh trace_before_player_win).game_state.cpu_color) ∧
    (count_cells (run fresh trace_before_cpu_win).board
        (run fresh trace_before_cpu_win).game_state.player_color =
      count_cells (run fresh trace_before_cpu_win).board
        (run fresh trace_before_cpu_win).game_state.cpu_color + 1) :=
  ⟨(piece_counts_follow_turn (run fresh trace_before_player_win)
      ⟨trace_before_player_win, rfl⟩).1 (by decide!),
    (piece_counts_follow_turn (run fresh trace_before_cpu_win)
      ⟨trace_before_cpu_win, rfl⟩).2 (by decide!)⟩

/-! ## Who can end a game in a tie -/

/-- While it is the player's turn in a reachable game, the board is not full
after the player's piece is placed. -/
theorem not_full_after_player_move (g : game_state_t) (b b2 : Board) (L : Char)
    (hL : L ∈ "ABCDEFGH".toList) (h : GameInv g b) (ht : g.player_turn = 1)
    (hd : drop b L g.player_color = (true, b2)) : check_tie b2 = false := by
  have hn0 : g.player_turn ≠ 0 := by rw [ht]; decide
  obtain ⟨i, hin, he, rfl⟩ := drop_success b b2 L g.player_color (char_to_col_letter L hL).2 hd
  have hcol := h.colours hn0
  have hp0 : g.player_color ≠ '0' := by rcases hcol with ⟨e, _⟩ | ⟨e, _⟩ <;> rw [e] <;> decide
  obtain ⟨c1, _, _⟩ := count_after_placing b i _ hin he g.player_color hp0
  have htot := h.total hn0
  have heq := h.player_turn ht
  rw [check_tie_eq_false_iff]
  exact exists_empty_of_count_pos _ (by omega)

/-- The `tie` flag after the `DROPC` branch: unchanged, unless the branch that
sets it was taken. -/
theorem do_dropc_tie (s : State) (L : Char) :
    (do_dropc s L).tie = s.tie ∨
    (s.game_state.player_turn = 1 ∧
      ∃ b, drop s.board L s.game_state.player_color = (true, b) ∧ check_tie b = true) := by
  by_cases ht : s.game_state.player_turn = 1
  · cases hd : drop s.board L s.game_state.player_color with
    | mk r b =>
      cases r with
      | false =>
        left
        simp [do_dropc, ht, hd]
      | true =>
        cases hc : check_tie b with
        | true => exact Or.inr ⟨ht, b, rfl, hc⟩
        | false =>
          left
          rw [do_dropc_of_drop s L b ht hd, hc]
          split_ifs <;> first | rfl | contradiction
  · left
    unfold do_dropc
    split_ifs <;> rfl

/-- The `tie` flag after the `CTURN` branch: unchanged outside CpuTurn. -/
theorem do_cturn_tie (s : State) (rnd : Nat) :
    (do_cturn s rnd).tie = s.tie ∨ s.game_state.player_turn = 2 := by
  by_cases ht : s.game_state.player_turn = 2
  · exact Or.inr ht
  · left
    unfold do_cturn
    split_ifs <;> rfl

/-- The `tie` flag after the dispatcher: unchanged, or the `DROPC` branch ran
on an accepted column, or the text is `CTURN` and its branch ran. -/
theorem dispatch_tie (s : State) (cmd : List Char) (rnd : Nat) :
    (dispatch s cmd rnd).tie = s.tie ∨
    (∃ L, L ∈ "ABCDEFGH".toList ∧ dispatch s cmd rnd = do_dropc s L) ∨
    (cmd = "CTURN".toList ∧ dispatch s cmd rnd = do_cturn s rnd) := by
  unfold dispatch
  split_ifs with h1 h2 h3 h4
  · exact Or.inl rfl
  · split
    · split_ifs
      · exact Or.inl rfl
      · exact Or.inl rfl
    · exact Or.inl rfl
  · split
    · split_ifs with hc
      · exact Or.inr (Or.inl ⟨_, (is_column_iff _).1 hc, rfl⟩)
      · exact Or.inl rfl
    · exact Or.inl rfl
  · exact Or.inr (Or.inr ⟨by simpa [strcmp_eq] using h4, rfl⟩)
  · exact Or.inl rfl

/-- C20. A player's move never ends a game in a tie.  In every reachable
state: the condition of the tie branch of `DROPC` (PlayerTurn, the drop
succeeds, the board is full afterwards) never holds; a write of `DROPC L`
leaves the `tie` flag as it was; and a write that raises the `tie` flag has
the command text `CTURN` and is made in CpuTurn. -/
theorem player_move_never_ties (s : State) (hs : Reachable s) :
    (∀ L b, L ∈ "ABCDEFGH".toList → s.game_state.player_turn = 1 →
      drop s.board L s.game_state.player_color = (true, b) → check_tie b = false) ∧
    (∀ L rnd, L ∈ "ABCDEFGH".toList →
      (fourinarow_write s ("DROPC ".toList ++ [L]) false rnd).2.tie = s.tie) ∧
    (∀ buf copy_fails rnd, s.tie = false →
      (fourinarow_write s buf copy_fails rnd).2.tie = true →
      command_text buf = "CTURN".toList ∧ s.game_state.player_turn = 2) := by
  have hinv := gameInv_reachable s hs
  have hbranch : ∀ L b, L ∈ "ABCDEFGH".toList → s.game_state.player_turn = 1 →
      drop s.board L s.game_state.player_color = (true, b) → check_tie b = false :=
    fun L b hL ht hd => not_full_after_player_move s.game_state s.board b L hL hinv ht hd
  have hdropc : ∀ L, L ∈ "ABCDEFGH".toList → (do_dropc s L).tie = s.tie := by
    intro L hL
    rcases do_dropc_tie s L with h | ⟨ht, b, hd, hc⟩
    · exact h
    · rw [hbranch L b hL ht hd] at hc
      exact absurd hc (by decide)
  refine ⟨hbranch, fun L rnd hL => ?_, fun buf f rnd h0 h1 => ?_⟩
  · rw [write_dropc s rnd L hL]
    exact hdropc L hL
  · unfold fourinarow_write at h1
    split_ifs at h1
    · rw [h0] at h1; exact absurd h1 (by decide)
    · rw [h0] at h1; exact absurd h1 (by decide)
    · have h1' : (dispatch s (command_text buf) rnd).tie = true := h1
      rcases dispatch_tie s (command_text buf) rnd with h | ⟨L, hL, h⟩ | ⟨hc, h⟩
      · rw [h, h0] at h1'; exact absurd h1' (by decide)
      · rw [h, hdropc L hL, h0] at h1'; exact absurd h1' (by decide)
      · refine ⟨hc, ?_⟩
        rcases do_cturn_tie s rnd with h2 | h2
        · rw [h, h2, h0] at h1'; exact absurd h1' (by decide)
        · exact h2

/-- Instance of C20 on the game of `trace_before_player_win`, which is in
PlayerTurn: a `DROPC B` leaves the `tie` flag as it was. -/
theorem player_move_never_ties_witness :
    (fourinarow_write (run fresh trace_before_player_win)
      ("DROPC ".toList ++ ['B']) false 0).2.tie = (run fresh trace_before_player_win).tie :=
  (player_move_never_ties (run fresh trace_before_player_win)
    ⟨trace_before_player_win, rfl⟩).2.1 'B' 0 (by decide)

/-! ## The reply after the board fills up -/

/-- C12, evaluated on a whole game in which every reply is read.  Before the
last call the turn state is CpuTurn and one cell is empty; the `CTURN` drawing
column F fills it, the computer has no four in a row, the board is full, the
turn state becomes NoGame and `tie` is set; but Read returns `OK`, not `TIE`,
because the `ok` flag of the earlier moves is still set. -/
theorem tie_reply_shadowed_by_ok :
    trace_before_tie.length = 128 ∧
    (run fresh trace_before_tie).game_state.player_turn = 2 ∧
    count_cells (run fresh trace_before_tie).board '0' = 1 ∧
    (run fresh trace_before_tie).tie = false ∧
    check_win (fourinarow_write (run fresh trace_before_tie)
      "CTURN".toList false 5).2.board 'Y' = false ∧
    check_tie (fourinarow_write (run fresh trace_before_tie)
      "CTURN".toList false 5).2.board = true ∧
    (fourinarow_write (run fresh trace_before_tie)
      "CTURN".toList false 5).2.game_state.player_turn = 0 ∧
    (fourinarow_write (run fresh trace_before_tie) "CTURN".toList false 5).2.tie = true ∧
    (fourinarow_write (run fresh trace_before_tie) "CTURN".toList false 5).2.ok = true ∧
    (fourinarow_read (fourinarow_write (run fresh trace_before_tie)
      "CTURN".toList false 5).2 0 false).1.out = "OK\n".toList := by
  decide!

end FourInARow
